import Mathlib

/-!
Verification of the task-dependency orchestration engine of
`multi_agent_adrg/agent_framework.py` (classes `TaskStatus`, `TaskResult`,
`Agent`, `Task`, `Crew`), via a shallow embedding.

Modelling conventions:
* Python exceptions raised by a task's `action` callable are modelled by the
  sum type `ActionResult` (`ok descriptor` / `exn message`).
* Python dictionaries used as ordered key/value stores (`self.results`,
  `self.context`, descriptors, dict comprehensions in `Crew.__init__`) are
  modelled as association lists with Python's dict-assignment semantics
  (`dictSet`: replace in place if the key is present, else append).
* Arbitrary Python values stored in descriptors are modelled by `Value`,
  a payload string together with its Python truthiness (the engine only
  ever consults truthiness, in `if result.output_path:`).
* The `while` loop of `Crew.kickoff` is modelled with explicit fuel;
  `KickoffOutcome.fuelOut` marks fuel exhaustion.  `Crew.kickoff` supplies
  fuel `tasks.length + 1`, and we prove this can never be exhausted, which
  is exactly the termination of the Python loop.
* Ghost instrumentation (never read by the algorithm itself): `trace`
  records every invocation of `Agent.execute_task` together with the
  `completed_tasks` snapshot at the call; `resultWrites` / `contextWrites`
  record, in order, each key assigned into `self.results` / `self.context`.
-/

namespace AgentFramework

/-- Status of a task execution (`TaskStatus` enum). -/
inductive TaskStatus
  | pending
  | running
  | completed
  | failed
  | skipped
deriving DecidableEq

/-- A Python value as the engine sees it: opaque payload plus truthiness. -/
structure Value where
  data : String
  truthy : Bool
deriving DecidableEq

/-- The descriptor dictionary returned by a task's action. -/
abbrev Descriptor := List (String × Value)

/-- Lookup in an association list (Python `dict.get` / `dict[k]`). -/
def alookup {α : Type} : List (String × α) → String → Option α
  | [], _ => none
  | (k, v) :: rest, key => if k = key then some v else alookup rest key

/-- Python dict assignment `d[k] = v`: replace in place if present, else
append at the end (insertion order preserved). -/
def dictSet {α : Type} : List (String × α) → String → α → List (String × α)
  | [], key, v => [(key, v)]
  | (k, w) :: rest, key, v =>
      if k = key then (k, v) :: rest else (k, w) :: dictSet rest key v

/-- Result of a task execution (`TaskResult` dataclass; `__post_init__`
replaces a missing metadata dict by the empty one, which is the default
here). -/
structure TaskResult where
  task_id : String
  status : TaskStatus
  output_path : Option Value := none
  error : Option String := none
  metadata : Descriptor := []
deriving DecidableEq

/-- An agent: identity and role metadata only (`Agent.__init__`). -/
structure Agent where
  name : String
  role : String
  goal : String
  backstory : String
  tools : List String
  verbose : Bool
deriving DecidableEq

/-- One entry of the shared context: what `Crew.kickoff` stores under a
completed task's ID. -/
structure ContextEntry where
  output_path : Option Value
  metadata : Descriptor
deriving DecidableEq

/-- The shared context dictionary (`self.context`). -/
abbrev Context := List (String × ContextEntry)

/-- Outcome of calling a task's `action`: normal return of a descriptor, or
a raised exception carrying its message (`str(e)`). -/
inductive ActionResult
  | ok (descriptor : Descriptor)
  | exn (message : String)
deriving DecidableEq

/-- A task (`Task.__init__`); `action` is the task's callable. -/
structure Task where
  task_id : String
  description : String
  agent : Agent
  action : Context → ActionResult
  dependencies : List String
  config_key : Option String
  skippable : Bool
  status : TaskStatus

/-- `Task.__init__`: defaults `dependencies or []`, `skippable=False` are the
caller's concern; the constructor always sets `self.status = PENDING`. -/
def Task.init (task_id description : String) (agent : Agent)
    (action : Context → ActionResult) (dependencies : List String)
    (config_key : Option String) (skippable : Bool) : Task :=
  { task_id := task_id
    description := description
    agent := agent
    action := action
    dependencies := dependencies
    config_key := config_key
    skippable := skippable
    status := TaskStatus.pending }

/-- `Task.can_execute`: all dependencies are in `completed_tasks`. -/
def Task.can_execute (t : Task) (completed_tasks : List String) : Bool :=
  t.dependencies.all (fun dep => decide (dep ∈ completed_tasks))

/-- Python truthiness of `result.get('output_path')`. -/
def pyTruthy : Option Value → Bool
  | none => false
  | some v => v.truthy

/-- `Agent.execute_task`: run the action; on normal return wrap a
`completed` result copying `output_path` out of the descriptor and the full
descriptor into `metadata`; on an exception return a `failed` result with
the exception's message. -/
def Agent.execute_task (_agent : Agent) (task : Task) (context : Context) :
    TaskResult :=
  match task.action context with
  | ActionResult.ok result =>
      { task_id := task.task_id
        status := TaskStatus.completed
        output_path := alookup result "output_path"
        metadata := result }
  | ActionResult.exn e =>
      { task_id := task.task_id
        status := TaskStatus.failed
        error := some e }

/-- The caller's skip-request map (`skip_flags` dictionary). -/
abbrev SkipFlags := List (String × Bool)

/-- `skip_flags.get(task_id, False)`. -/
def skipRequested (skip_flags : SkipFlags) (task_id : String) : Bool :=
  (alookup skip_flags task_id).getD false

/-- The `TaskResult` recorded for a skip-requested task. -/
def skippedResult (task_id : String) : TaskResult :=
  { task_id := task_id, status := TaskStatus.skipped }

/-- Ghost record of one `Agent.execute_task` invocation: the task and the
`completed_tasks` snapshot at the moment of the call. -/
structure TraceEntry where
  task : Task
  completed_at_call : List String

/-- The orchestrator's run state. `tasks` is `self.tasks` (the insertion
ordered dict as a list with unique IDs), `context` is `self.context`,
`results` is `self.results`, `completed_tasks` / `failed_tasks` are the
local lists of `Crew.kickoff`.  `trace`, `resultWrites`, `contextWrites`
are ghost instrumentation (see the file header). -/
structure RunState where
  tasks : List Task
  context : Context
  results : List (String × TaskResult)
  completed_tasks : List String
  failed_tasks : List String
  trace : List TraceEntry
  resultWrites : List String
  contextWrites : List String

/-- Errors raised by `Crew.kickoff` (`RuntimeError`s). -/
inductive RunError
  | stuck (remaining : List String)
  | critical (task_id : String) (error : Option String)
deriving DecidableEq

/-- How a `kickoff` run ends: normal return of the results dict, a raised
`RuntimeError`, or fuel exhaustion of the fuelled loop model. -/
inductive KickoffOutcome
  | ok (results : List (String × TaskResult))
  | error (e : RunError)
  | fuelOut
deriving DecidableEq

/-- One step of the scan in lines 186-203 of `kickoff`: for one task,
either skip (already resolved), record a skip request, collect it as
executable, or leave it pending. -/
def scanOne (skip_flags : SkipFlags) (st : RunState) (executable : List Task)
    (task : Task) : RunState × List Task :=
  if task.task_id ∈ st.completed_tasks ∨ task.task_id ∈ st.failed_tasks then
    (st, executable)
  else if skipRequested skip_flags task.task_id then
    ({ st with
        completed_tasks := st.completed_tasks ++ [task.task_id]
        results := dictSet st.results task.task_id (skippedResult task.task_id)
        resultWrites := st.resultWrites ++ [task.task_id] }, executable)
  else if task.can_execute st.completed_tasks then
    (st, executable ++ [task])
  else
    (st, executable)

/-- The full scan pass (the `for task_id, task in self.tasks.items()` loop). -/
def scanList (skip_flags : SkipFlags) :
    List Task → RunState → List Task → RunState × List Task
  | [], st, executable => (st, executable)
  | task :: rest, st, executable =>
      match scanOne skip_flags st executable task with
      | (st1, ex1) => scanList skip_flags rest st1 ex1

/-- Scan pass over the crew's whole task dict. -/
def scanTasks (skip_flags : SkipFlags) (st : RunState) : RunState × List Task :=
  scanList skip_flags st.tasks st []

/-- Execution of one executable task (lines 216-235 of `kickoff`): invoke
the agent, store the result, then update `completed_tasks` and `context`
(on `completed`) or `failed_tasks` (on `failed`), raising a critical
error when a non-skippable task failed. -/
def execOne (st : RunState) (task : Task) : RunState × Option RunError :=
  let result := task.agent.execute_task task st.context
  let st1 : RunState :=
    { st with
        trace := st.trace ++ [{ task := task, completed_at_call := st.completed_tasks }]
        results := dictSet st.results task.task_id result
        resultWrites := st.resultWrites ++ [task.task_id] }
  if result.status = TaskStatus.completed then
    let st2 : RunState :=
      { st1 with completed_tasks := st1.completed_tasks ++ [task.task_id] }
    if pyTruthy result.output_path then
      ({ st2 with
          context := dictSet st2.context task.task_id
            { output_path := result.output_path, metadata := result.metadata }
          contextWrites := st2.contextWrites ++ [task.task_id] }, none)
    else
      (st2, none)
  else if result.status = TaskStatus.failed then
    let st2 : RunState :=
      { st1 with failed_tasks := st1.failed_tasks ++ [task.task_id] }
    if task.skippable then (st2, none)
    else (st2, some (RunError.critical task.task_id result.error))
  else
    (st1, none)

/-- The `for task in executable_tasks` loop: execute in scan order, abort
at the first critical error. -/
def execTasks : RunState → List Task → RunState × Option RunError
  | st, [] => (st, none)
  | st, task :: rest =>
      match execOne st task with
      | (st1, none) => execTasks st1 rest
      | (st1, some e) => (st1, some e)

/-- `set(self.tasks.keys()) - set(completed_tasks) - set(failed_tasks)`,
as a list in task order. -/
def remainingIds (st : RunState) : List String :=
  (st.tasks.map Task.task_id).filter
    (fun id => decide (id ∉ st.completed_tasks ∧ id ∉ st.failed_tasks))

/-- The `while` loop of `Crew.kickoff`, with explicit fuel.  The loop
condition is re-checked on every entry; fuel is consumed only when the
body runs. -/
def kickoffLoop (skip_flags : SkipFlags) :
    Nat → RunState → RunState × KickoffOutcome
  | 0, st =>
      if st.completed_tasks.length + st.failed_tasks.length < st.tasks.length
      then (st, KickoffOutcome.fuelOut)
      else (st, KickoffOutcome.ok st.results)
  | fuel + 1, st =>
      if st.completed_tasks.length + st.failed_tasks.length < st.tasks.length
      then
        match scanTasks skip_flags st with
        | (st1, executable) =>
          if executable.isEmpty then
            if (remainingIds st1).isEmpty then
              (st1, KickoffOutcome.ok st1.results)
            else
              (st1, KickoffOutcome.error (RunError.stuck (remainingIds st1)))
          else
            match execTasks st1 executable with
            | (st2, none) => kickoffLoop skip_flags fuel st2
            | (st2, some e) => (st2, KickoffOutcome.error e)
      else (st, KickoffOutcome.ok st.results)

/-- Python dict comprehension step for `{task.task_id: task for task in tasks}`:
re-assignment keeps the first-insertion position. -/
def dictInsertTask (l : List Task) (t : Task) : List Task :=
  if l.any (fun u => decide (u.task_id = t.task_id)) then
    l.map (fun u => if u.task_id = t.task_id then t else u)
  else l ++ [t]

/-- `{task.task_id: task for task in tasks}` as an ordered list. -/
def buildTaskDict (tasks : List Task) : List Task :=
  tasks.foldl dictInsertTask []

/-- Analogous dict comprehension for `{agent.name: agent for agent in agents}`. -/
def dictInsertAgent (l : List Agent) (a : Agent) : List Agent :=
  if l.any (fun b => decide (b.name = a.name)) then
    l.map (fun b => if b.name = a.name then a else b)
  else l ++ [a]

/-- The orchestrator (`Crew`). -/
structure Crew where
  agents : List Agent
  tasks : List Task
  config : Descriptor
  verbose : Bool
  context : Context
  results : List (String × TaskResult)

/-- `Crew.__init__`: build the agent and task dicts, empty context and
results. -/
def Crew.init (agents : List Agent) (tasks : List Task) (config : Descriptor)
    (verbose : Bool) : Crew :=
  { agents := agents.foldl dictInsertAgent []
    tasks := buildTaskDict tasks
    config := config
    verbose := verbose
    context := []
    results := [] }

/-- Initial run state of a `kickoff` call on a freshly built crew. -/
def initState (crew : Crew) : RunState :=
  { tasks := crew.tasks
    context := crew.context
    results := crew.results
    completed_tasks := []
    failed_tasks := []
    trace := []
    resultWrites := []
    contextWrites := [] }

/-- `Crew.kickoff`.  Fuel `tasks.length + 1` is an upper bound on the
number of loop passes (proved later: the `fuelOut` outcome is unreachable). -/
def Crew.kickoff (crew : Crew) (skip_flags : SkipFlags) :
    RunState × KickoffOutcome :=
  kickoffLoop skip_flags (crew.tasks.length + 1) (initState crew)

/-- The run entrypoint pattern of `main.py`: build a crew from agents,
tasks and config, then call `kickoff` with the caller's skip map. -/
def runCrew (agents : List Agent) (tasks : List Task) (config : Descriptor)
    (verbose : Bool) (skip_flags : SkipFlags) : RunState × KickoffOutcome :=
  (Crew.init agents tasks config verbose).kickoff skip_flags

/-- Run-state invariant of the scheduling loop (proved to be maintained by
every pass; at the initial state it is trivial). -/
structure Inv (flags : SkipFlags) (st : RunState) : Prop where
  complete_sub : ∀ x ∈ st.completed_tasks, x ∈ st.tasks.map Task.task_id
  failed_sub : ∀ x ∈ st.failed_tasks, x ∈ st.tasks.map Task.task_id
  complete_nodup : st.completed_tasks.Nodup
  failed_nodup : st.failed_tasks.Nodup
  disj : ∀ x ∈ st.completed_tasks, x ∉ st.failed_tasks
  res_keys : st.results.map Prod.fst = st.resultWrites
  ctx_keys : st.context.map Prod.fst = st.contextWrites
  resW_sub : ∀ x ∈ st.resultWrites, x ∈ st.completed_tasks ∨ x ∈ st.failed_tasks
  resW_nodup : st.resultWrites.Nodup
  ctxW_nodup : st.contextWrites.Nodup
  ctxW_completed : ∀ x ∈ st.contextWrites, x ∈ st.completed_tasks
  ctxW_noskip : ∀ x ∈ st.contextWrites, skipRequested flags x = false
  ctx_completed_res : ∀ x ∈ st.contextWrites, ∃ r, alookup st.results x = some r ∧
      r.status = TaskStatus.completed
  failed_noskip : ∀ x ∈ st.failed_tasks, skipRequested flags x = false
  trace_nodup : (st.trace.map (fun e => e.task.task_id)).Nodup
  trace_resolved : ∀ e ∈ st.trace,
      e.task.task_id ∈ st.completed_tasks ∨ e.task.task_id ∈ st.failed_tasks
  trace_noskip : ∀ e ∈ st.trace, skipRequested flags e.task.task_id = false
  trace_can : ∀ e ∈ st.trace, e.task.can_execute e.completed_at_call = true
  resolved_res : ∀ x, (x ∈ st.completed_tasks ∨ x ∈ st.failed_tasks) →
      ∃ r, alookup st.results x = some r ∧ r.task_id = x ∧
        (r.status = TaskStatus.completed ∨ r.status = TaskStatus.failed ∨
         r.status = TaskStatus.skipped)
  skipflag_res : ∀ x, skipRequested flags x = true →
      ∀ r, alookup st.results x = some r → r = skippedResult x

/-- What holds of every task collected into the `executable_tasks` list. -/
def ExInv (flags : SkipFlags) (st : RunState) (ex : List Task) : Prop :=
  ∀ u ∈ ex, u ∈ st.tasks ∧ skipRequested flags u.task_id = false ∧
    u.can_execute st.completed_tasks = true ∧
    u.task_id ∉ st.completed_tasks ∧ u.task_id ∉ st.failed_tasks

/-- A recorded invocation was not a fatal one: if its task was
non-skippable, the result stored under its ID is not `failed`. -/
def nonFatal (results : List (String × TaskResult)) (e : TraceEntry) : Prop :=
  e.task.skippable = false → ∀ r, alookup results e.task.task_id = some r →
    ¬ r.status = TaskStatus.failed

/-- No invocation recorded so far was a fatal failure. -/
def NFat (st : RunState) : Prop := ∀ e ∈ st.trace, nonFatal st.results e

/-- Everything the scan pass (`scanList`) guarantees, relating the input
state `st` and accumulator `ex` to the output `out` for a scanned list `l`. -/
structure ScanStep (flags : SkipFlags) (st : RunState) (ex : List Task)
    (l : List Task) (out : RunState × List Task) : Prop where
  inv : Inv flags out.1
  tasks_eq : out.1.tasks = st.tasks
  context_eq : out.1.context = st.context
  failed_eq : out.1.failed_tasks = st.failed_tasks
  trace_eq : out.1.trace = st.trace
  ctxW_eq : out.1.contextWrites = st.contextWrites
  growth : ∃ d, out.1.completed_tasks = st.completed_tasks ++ d ∧
      out.1.resultWrites = st.resultWrites ++ d ∧
      ∀ x ∈ d, skipRequested flags x = true
  res_stable : ∀ x, (x ∈ st.completed_tasks ∨ x ∈ st.failed_tasks) →
      alookup out.1.results x = alookup st.results x
  exinv : ExInv flags out.1 out.2
  ex_growth : ∃ dl, out.2 = ex ++ dl ∧ List.Sublist dl l
  skip_cover : ∀ u ∈ l, skipRequested flags u.task_id = true →
      u.task_id ∈ out.1.completed_tasks

/-- Everything the execution loop (`execTasks`) guarantees. -/
structure ExecsSpec (flags : SkipFlags) (st : RunState) (ex : List Task)
    (out : RunState × Option RunError) : Prop where
  inv : Inv flags out.1
  tasks_eq : out.1.tasks = st.tasks
  completed_mono : ∀ x ∈ st.completed_tasks, x ∈ out.1.completed_tasks
  failed_mono : ∀ x ∈ st.failed_tasks, x ∈ out.1.failed_tasks
  len_mono : st.completed_tasks.length + st.failed_tasks.length ≤
      out.1.completed_tasks.length + out.1.failed_tasks.length
  progress : ex ≠ [] → st.completed_tasks.length + st.failed_tasks.length + 1 ≤
      out.1.completed_tasks.length + out.1.failed_tasks.length
  new_from_ex : ∀ x, (x ∈ out.1.completed_tasks ∨ x ∈ out.1.failed_tasks) →
      (x ∈ st.completed_tasks ∨ x ∈ st.failed_tasks) ∨ ∃ u ∈ ex, u.task_id = x
  res_stable : ∀ x, (x ∈ st.completed_tasks ∨ x ∈ st.failed_tasks) →
      alookup out.1.results x = alookup st.results x
  nfat_none : out.2 = none → NFat st → NFat out.1
  err_critical : ∀ e, out.2 = some e →
      ∃ id err, e = RunError.critical id err
  err_shape : ∀ e, out.2 = some e → NFat st →
      ∃ u r pre entry, u.skippable = false ∧ r.status = TaskStatus.failed ∧
        e = RunError.critical u.task_id r.error ∧
        alookup out.1.results u.task_id = some r ∧
        out.1.trace = pre ++ [entry] ∧ entry.task = u ∧
        ∀ e2 ∈ pre, nonFatal out.1.results e2

/-- Everything one `kickoffLoop` call guarantees. -/
structure LoopSpec (flags : SkipFlags) (fuel : Nat) (st : RunState)
    (out : RunState × KickoffOutcome) : Prop where
  inv : Inv flags out.1
  tasks_eq : out.1.tasks = st.tasks
  completed_mono : ∀ x ∈ st.completed_tasks, x ∈ out.1.completed_tasks
  not_fuelOut : st.tasks.length ≤
      st.completed_tasks.length + st.failed_tasks.length + fuel →
      out.2 ≠ KickoffOutcome.fuelOut
  ok_results : ∀ r, out.2 = KickoffOutcome.ok r → r = out.1.results
  ok_cover : ∀ r, out.2 = KickoffOutcome.ok r →
      ∀ id ∈ st.tasks.map Task.task_id,
        id ∈ out.1.completed_tasks ∨ id ∈ out.1.failed_tasks
  stuck_shape : ∀ rem, out.2 = KickoffOutcome.error (RunError.stuck rem) →
      rem = remainingIds out.1 ∧ rem ≠ []
  fatal_shape : NFat st → ∀ id err,
      out.2 = KickoffOutcome.error (RunError.critical id err) →
      ∃ u r pre entry, u.skippable = false ∧ r.status = TaskStatus.failed ∧
        id = u.task_id ∧ err = r.error ∧
        alookup out.1.results u.task_id = some r ∧
        out.1.trace = pre ++ [entry] ∧ entry.task = u ∧
        ∀ e2 ∈ pre, nonFatal out.1.results e2
  no_fatal : NFat st →
      (∀ id err, out.2 ≠ KickoffOutcome.error (RunError.critical id err)) →
      NFat out.1
  unreach : ∀ t dep, t ∈ st.tasks →
      dep ∈ t.dependencies → dep ∉ st.tasks.map Task.task_id →
      skipRequested flags t.task_id = false →
      t.task_id ∉ st.completed_tasks → t.task_id ∉ st.failed_tasks →
      t.task_id ∉ out.1.completed_tasks ∧ t.task_id ∉ out.1.failed_tasks
  skipc : 0 < fuel →
      st.completed_tasks.length + st.failed_tasks.length < st.tasks.length →
      ∀ t ∈ st.tasks, skipRequested flags t.task_id = true →
        t.task_id ∈ out.1.completed_tasks

/-- A fixed agent for the concrete example workflows below. -/
def exAgent : Agent :=
  { name := "agent", role := "role", goal := "goal", backstory := "story"
    tools := [], verbose := true }

/-- An action that succeeds and reports an output path. -/
def okAction : Context → ActionResult :=
  fun _ => ActionResult.ok [("output_path", { data := "out.txt", truthy := true })]

/-- An action that raises an exception with message `boom`. -/
def boomAction : Context → ActionResult :=
  fun _ => ActionResult.exn "boom"

/-- Task `A`: no dependencies, succeeds. -/
def taskA : Task := Task.init "A" "task A" exAgent okAction [] none false

/-- Task `B`: depends on the nonexistent ID `Z`. -/
def taskBmissing : Task := Task.init "B" "task B" exAgent okAction ["Z"] none false

/-- Task `C`: depends on `A`, succeeds. -/
def taskC : Task := Task.init "C" "task C" exAgent okAction ["A"] none false

/-- Task `E`: skippable and failing. -/
def taskE : Task := Task.init "E" "task E" exAgent boomAction [] none true

/-- Task `F`: depends on the (failing) task `E`. -/
def taskF : Task := Task.init "F" "task F" exAgent okAction ["E"] none false

/-- Task `G`: non-skippable and failing. -/
def taskG : Task := Task.init "G" "task G" exAgent boomAction [] none false

/-- Crew whose task `B` references a missing dependency ID. -/
def crewMissingDep : Crew := Crew.init [exAgent] [taskA, taskBmissing] [] true

/-- Crew where a skippable failure strands a dependent. -/
def crewStranded : Crew := Crew.init [exAgent] [taskE, taskF] [] true

/-- Crew with a simple two-task dependency chain that completes. -/
def crewChain : Crew := Crew.init [exAgent] [taskA, taskC] [] true

/-- Crew where the non-skippable task `G` fails while `C` is still pending. -/
def crewFatal : Crew := Crew.init [exAgent] [taskA, taskG, taskC] [] true

theorem alookup_dictSet_self {α : Type} (l : List (String × α)) (k : String)
    (v : α) : alookup (dictSet l k v) k = some v := by
  induction l with
  | nil => simp [dictSet, alookup]
  | cons p rest ih =>
      obtain ⟨k1, w⟩ := p
      by_cases h : k1 = k
      · simp [dictSet, h, alookup]
      · simp [dictSet, h, alookup, ih]

theorem alookup_dictSet_ne {α : Type} (l : List (String × α)) (k k2 : String)
    (v : α) (h : k2 ≠ k) : alookup (dictSet l k v) k2 = alookup l k2 := by
  have hne : ¬ k = k2 := fun hh => h hh.symm
  induction l with
  | nil => simp [dictSet, alookup, hne]
  | cons p rest ih =>
      obtain ⟨k1, w⟩ := p
      by_cases h1 : k1 = k
      · subst h1
        simp [dictSet, alookup, hne]
      · simp [dictSet, alookup, h1, ih]

theorem map_fst_dictSet {α : Type} (l : List (String × α)) (k : String)
    (v : α) (h : k ∉ l.map Prod.fst) :
    (dictSet l k v).map Prod.fst = l.map Prod.fst ++ [k] := by
  induction l with
  | nil => simp [dictSet]
  | cons p rest ih =>
      obtain ⟨k1, w⟩ := p
      simp only [List.map_cons, List.mem_cons] at h
      push_neg at h
      simp [dictSet, Ne.symm h.1, ih h.2]

theorem mem_map_fst_of_alookup {α : Type} {l : List (String × α)} {k : String}
    {v : α} (h : alookup l k = some v) : k ∈ l.map Prod.fst := by
  induction l with
  | nil => simp [alookup] at h
  | cons p rest ih =>
      obtain ⟨k1, w⟩ := p
      by_cases h1 : k1 = k
      · simp [h1]
      · simp only [alookup, h1, if_false] at h
        simp [ih h]

theorem alookup_eq_none {α : Type} {l : List (String × α)} {k : String}
    (h : k ∉ l.map Prod.fst) : alookup l k = none := by
  cases hl : alookup l k with
  | none => rfl
  | some v => exact absurd (mem_map_fst_of_alookup hl) h

theorem can_execute_iff (t : Task) (c : List String) :
    t.can_execute c = true ↔ ∀ dep ∈ t.dependencies, dep ∈ c := by
  simp [Task.can_execute, List.all_eq_true]

theorem can_execute_mono {t : Task} {c c2 : List String} (hsub : c ⊆ c2)
    (h : t.can_execute c = true) : t.can_execute c2 = true := by
  rw [can_execute_iff] at h ⊢
  exact fun dep hd => hsub (h dep hd)

theorem execute_task_task_id (a : Agent) (t : Task) (c : Context) :
    (a.execute_task t c).task_id = t.task_id := by
  cases h : t.action c <;> simp [Agent.execute_task, h]

theorem execute_task_status (a : Agent) (t : Task) (c : Context) :
    (a.execute_task t c).status = TaskStatus.completed ∨
    (a.execute_task t c).status = TaskStatus.failed := by
  cases h : t.action c <;> simp [Agent.execute_task, h]

theorem execute_task_ok (a : Agent) (t : Task) (c : Context) (d : Descriptor)
    (h : t.action c = ActionResult.ok d) :
    a.execute_task t c =
      { task_id := t.task_id, status := TaskStatus.completed,
        output_path := alookup d "output_path", error := none, metadata := d } := by
  simp [Agent.execute_task, h]

theorem execute_task_exn (a : Agent) (t : Task) (c : Context) (m : String)
    (h : t.action c = ActionResult.exn m) :
    a.execute_task t c =
      { task_id := t.task_id, status := TaskStatus.failed,
        output_path := none, error := some m, metadata := [] } := by
  simp [Agent.execute_task, h]

theorem dictInsertTask_map_id (l : List Task) (t : Task) :
    (dictInsertTask l t).map Task.task_id =
      if t.task_id ∈ l.map Task.task_id then l.map Task.task_id
      else l.map Task.task_id ++ [t.task_id] := by
  by_cases h : t.task_id ∈ l.map Task.task_id
  · have hany : l.any (fun u => decide (u.task_id = t.task_id)) = true := by
      simp only [List.any_eq_true, decide_eq_true_eq]
      obtain ⟨u, hu, he⟩ := List.mem_map.mp h
      exact ⟨u, hu, he⟩
    simp only [dictInsertTask, hany, if_true, h, if_true]
    rw [List.map_map]
    apply List.map_congr_left
    intro u hu
    by_cases he : u.task_id = t.task_id <;> simp [he]
  · have hany : l.any (fun u => decide (u.task_id = t.task_id)) = false := by
      simp only [List.any_eq_false, decide_eq_true_eq]
      intro u hu he
      exact h (List.mem_map.mpr ⟨u, hu, he⟩)
    simp [dictInsertTask, hany, h]

theorem buildTaskDict_aux_nodup (l : List Task) :
    ∀ acc : List Task, (acc.map Task.task_id).Nodup →
      ((l.foldl dictInsertTask acc).map Task.task_id).Nodup := by
  induction l with
  | nil => intro acc h; simpa using h
  | cons t rest ih =>
      intro acc h
      simp only [List.foldl_cons]
      apply ih
      rw [dictInsertTask_map_id]
      by_cases hm : t.task_id ∈ acc.map Task.task_id
      · simpa [hm] using h
      · simp [hm, List.nodup_append, h]

theorem buildTaskDict_nodup (l : List Task) :
    ((buildTaskDict l).map Task.task_id).Nodup :=
  buildTaskDict_aux_nodup l [] (by simp)

theorem buildTaskDict_aux_pred (p : Task → Prop) (l : List Task)
    (hl : ∀ t ∈ l, p t) :
    ∀ acc : List Task, (∀ t ∈ acc, p t) →
      ∀ t ∈ l.foldl dictInsertTask acc, p t := by
  induction l with
  | nil => intro acc h; simpa using h
  | cons u rest ih =>
      intro acc h
      simp only [List.foldl_cons]
      refine ih (fun t ht => hl t (List.mem_cons_of_mem _ ht)) _ ?_
      intro t ht
      unfold dictInsertTask at ht
      by_cases hany : acc.any (fun w => decide (w.task_id = u.task_id)) = true
      · simp only [hany, if_true] at ht
        obtain ⟨w, hw, he⟩ := List.mem_map.mp ht
        by_cases hww : w.task_id = u.task_id
        · simp only [hww, if_true] at he
          exact he ▸ hl u (List.mem_cons_self u rest)
        · simp only [hww, if_false] at he
          exact he ▸ h w hw
      · simp only [Bool.not_eq_true] at hany
        simp only [hany, Bool.false_eq_true, if_false, List.mem_append,
          List.mem_singleton] at ht
        rcases ht with ht | ht
        · exact h t ht
        · exact ht ▸ hl u (List.mem_cons_self u rest)

theorem buildTaskDict_pred (p : Task → Prop) (l : List Task)
    (hl : ∀ t ∈ l, p t) : ∀ t ∈ buildTaskDict l, p t :=
  buildTaskDict_aux_pred p l hl [] (by simp)

theorem crew_init_nodup (agents : List Agent) (tasks : List Task)
    (config : Descriptor) (verbose : Bool) :
    (((Crew.init agents tasks config verbose).tasks).map Task.task_id).Nodup :=
  buildTaskDict_nodup tasks

theorem nodup_map_inj {l : List Task} (h : (l.map Task.task_id).Nodup)
    {a b : Task} (ha : a ∈ l) (hb : b ∈ l) (he : a.task_id = b.task_id) :
    a = b :=
  List.inj_on_of_nodup_map h ha hb he

theorem Inv_initState (flags : SkipFlags) (crew : Crew)
    (hres : crew.results = []) (hctx : crew.context = []) :
    Inv flags (initState crew) := by
  constructor <;> simp [initState, hres, hctx, alookup]

theorem scanOne_step (flags : SkipFlags) (st : RunState) (ex : List Task)
    (task : Task) (hInv : Inv flags st) (htask : task ∈ st.tasks)
    (hex : ExInv flags st ex) :
    ScanStep flags st ex [task] (scanOne flags st ex task) := by
  unfold scanOne
  split_ifs with h1 h2 h3
  · -- already completed or failed: no change
    refine { inv := hInv, tasks_eq := rfl, context_eq := rfl, failed_eq := rfl,
             trace_eq := rfl, ctxW_eq := rfl,
             growth := ⟨[], by simp, by simp, by simp⟩,
             res_stable := fun x _ => rfl, exinv := hex,
             ex_growth := ⟨[], by simp, List.nil_sublist _⟩,
             skip_cover := ?_ }
    intro u hu hflag
    rcases List.mem_singleton.mp hu with rfl
    rcases h1 with hc | hf
    · exact hc
    · exact absurd (hInv.failed_noskip _ hf) (by simp [hflag])
  · -- skip-requested: record a skipped result
    push_neg at h1
    obtain ⟨hnc, hnf⟩ := h1
    have hnrw : task.task_id ∉ st.resultWrites := fun hmem =>
      (hInv.resW_sub _ hmem).elim hnc hnf
    have hkeys : task.task_id ∉ st.results.map Prod.fst := by
      rw [hInv.res_keys]; exact hnrw
    refine { inv := ?_, tasks_eq := rfl, context_eq := rfl, failed_eq := rfl,
             trace_eq := rfl, ctxW_eq := rfl,
             growth := ⟨[task.task_id], rfl, rfl, by simp [h2]⟩,
             res_stable := ?_, exinv := ?_,
             ex_growth := ⟨[], by simp, List.nil_sublist _⟩,
             skip_cover := ?_ }
    · refine { complete_sub := ?_, failed_sub := hInv.failed_sub,
               complete_nodup := ?_, failed_nodup := hInv.failed_nodup,
               disj := ?_, res_keys := ?_, ctx_keys := hInv.ctx_keys,
               resW_sub := ?_, resW_nodup := ?_,
               ctxW_nodup := hInv.ctxW_nodup, ctxW_completed := ?_,
               ctxW_noskip := hInv.ctxW_noskip, ctx_completed_res := ?_,
               failed_noskip := hInv.failed_noskip,
               trace_nodup := hInv.trace_nodup, trace_resolved := ?_,
               trace_noskip := hInv.trace_noskip, trace_can := hInv.trace_can,
               resolved_res := ?_, skipflag_res := ?_ }
      · intro x hx
        rcases List.mem_append.mp hx with hx | hx
        · exact hInv.complete_sub x hx
        · rcases List.mem_singleton.mp hx with rfl
          exact List.mem_map_of_mem Task.task_id htask
      · simpa [List.nodup_append] using ⟨hInv.complete_nodup, fun h => hnc h⟩
      · intro x hx
        rcases List.mem_append.mp hx with hx | hx
        · exact hInv.disj x hx
        · rcases List.mem_singleton.mp hx with rfl
          exact hnf
      · show (dictSet st.results task.task_id _).map Prod.fst = _
        rw [map_fst_dictSet _ _ _ hkeys, hInv.res_keys]
      · intro x hx
        rcases List.mem_append.mp hx with hx | hx
        · rcases hInv.resW_sub x hx with hx2 | hx2
          · exact Or.inl (List.mem_append_left _ hx2)
          · exact Or.inr hx2
        · rcases List.mem_singleton.mp hx with rfl
          exact Or.inl (List.mem_append_right _ (List.mem_singleton_self _))
      · simpa [List.nodup_append] using ⟨hInv.resW_nodup, fun h => hnrw h⟩
      · intro x hx
        exact List.mem_append_left _ (hInv.ctxW_completed x hx)
      · intro x hx
        obtain ⟨r, hr, hs⟩ := hInv.ctx_completed_res x hx
        have hne : x ≠ task.task_id := fun he =>
          hnc (he ▸ hInv.ctxW_completed x hx)
        exact ⟨r, by rw [alookup_dictSet_ne _ _ _ _ hne]; exact hr, hs⟩
      · intro e he
        rcases hInv.trace_resolved e he with hc2 | hf2
        · exact Or.inl (List.mem_append_left _ hc2)
        · exact Or.inr hf2
      · intro x hx
        by_cases hxe : x = task.task_id
        · subst hxe
          refine ⟨skippedResult task.task_id, alookup_dictSet_self _ _ _, rfl, ?_⟩
          simp [skippedResult]
        · have hx2 : x ∈ st.completed_tasks ∨ x ∈ st.failed_tasks := by
            rcases hx with hx | hx
            · rcases List.mem_append.mp hx with hx | hx
              · exact Or.inl hx
              · exact absurd (List.mem_singleton.mp hx) hxe
            · exact Or.inr hx
          obtain ⟨r, hr, hid, hs⟩ := hInv.resolved_res x hx2
          exact ⟨r, by rw [alookup_dictSet_ne _ _ _ _ hxe]; exact hr, hid, hs⟩
      · intro x hfl r hr
        by_cases hxe : x = task.task_id
        · subst hxe
          rw [alookup_dictSet_self] at hr
          exact (Option.some_injective _ hr).symm
        · rw [alookup_dictSet_ne _ _ _ _ hxe] at hr
          exact hInv.skipflag_res x hfl r hr
    · intro x hx
      have hne : x ≠ task.task_id := by
        rintro rfl
        rcases hx with hx | hx
        · exact hnc hx
        · exact hnf hx
      exact alookup_dictSet_ne _ _ _ _ hne
    · intro u hu
      obtain ⟨hm, hns, hcan, hfc, hff⟩ := hex u hu
      have hne : u.task_id ≠ task.task_id := fun he => by
        rw [he] at hns
        rw [hns] at h2
        exact Bool.false_ne_true h2
      refine ⟨hm, hns, can_execute_mono (List.subset_append_left _ _) hcan, ?_, hff⟩
      intro hmem
      rcases List.mem_append.mp hmem with hmem | hmem
      · exact hfc hmem
      · exact hne (List.mem_singleton.mp hmem)
    · intro u hu _
      rcases List.mem_singleton.mp hu with rfl
      exact List.mem_append_right _ (List.mem_singleton_self _)
  · -- dependencies satisfied: collect as executable
    push_neg at h1
    obtain ⟨hnc, hnf⟩ := h1
    refine { inv := hInv, tasks_eq := rfl, context_eq := rfl, failed_eq := rfl,
             trace_eq := rfl, ctxW_eq := rfl,
             growth := ⟨[], by simp, by simp, by simp⟩,
             res_stable := fun x _ => rfl, exinv := ?_,
             ex_growth := ⟨[task], rfl, List.Sublist.refl _⟩,
             skip_cover := ?_ }
    · intro u hu
      rcases List.mem_append.mp hu with hu | hu
      · exact hex u hu
      · rcases List.mem_singleton.mp hu with rfl
        exact ⟨htask, Bool.not_eq_true _ ▸ h2, h3, hnc, hnf⟩
    · intro u hu hflag
      rcases List.mem_singleton.mp hu with rfl
      exact absurd hflag h2
  · -- still blocked: no change
    push_neg at h1
    refine { inv := hInv, tasks_eq := rfl, context_eq := rfl, failed_eq := rfl,
             trace_eq := rfl, ctxW_eq := rfl,
             growth := ⟨[], by simp, by simp, by simp⟩,
             res_stable := fun x _ => rfl, exinv := hex,
             ex_growth := ⟨[], by simp, List.nil_sublist _⟩,
             skip_cover := ?_ }
    intro u hu hflag
    rcases List.mem_singleton.mp hu with rfl
    exact absurd hflag h2

theorem scanList_step (flags : SkipFlags) (l : List Task) :
    ∀ (st : RunState) (ex : List Task), Inv flags st →
    (∀ u ∈ l, u ∈ st.tasks) → ExInv flags st ex →
    ScanStep flags st ex l (scanList flags l st ex) := by
  induction l with
  | nil =>
      intro st ex hInv _ hex
      show ScanStep flags st ex [] (st, ex)
      exact { inv := hInv, tasks_eq := rfl, context_eq := rfl, failed_eq := rfl,
              trace_eq := rfl, ctxW_eq := rfl,
              growth := ⟨[], by simp, by simp, by simp⟩,
              res_stable := fun x _ => rfl, exinv := hex,
              ex_growth := ⟨[], by simp, List.nil_sublist _⟩,
              skip_cover := by simp }
  | cons task rest ih =>
      intro st ex hInv hl hex
      have h1 := scanOne_step flags st ex task hInv
        (hl task (List.mem_cons_self _ _)) hex
      have hrest : ∀ u ∈ rest, u ∈ (scanOne flags st ex task).1.tasks :=
        fun u hu => h1.tasks_eq.symm ▸ hl u (List.mem_cons_of_mem _ hu)
      have h2 := ih (scanOne flags st ex task).1 (scanOne flags st ex task).2
        h1.inv hrest h1.exinv
      show ScanStep flags st ex (task :: rest)
        (scanList flags rest (scanOne flags st ex task).1
          (scanOne flags st ex task).2)
      obtain ⟨d1, hc1, hw1, hf1⟩ := h1.growth
      obtain ⟨d2, hc2, hw2, hf2⟩ := h2.growth
      obtain ⟨dl1, hdl1, hsub1⟩ := h1.ex_growth
      obtain ⟨dl2, hdl2, hsub2⟩ := h2.ex_growth
      refine { inv := h2.inv,
               tasks_eq := h2.tasks_eq.trans h1.tasks_eq,
               context_eq := h2.context_eq.trans h1.context_eq,
               failed_eq := h2.failed_eq.trans h1.failed_eq,
               trace_eq := h2.trace_eq.trans h1.trace_eq,
               ctxW_eq := h2.ctxW_eq.trans h1.ctxW_eq,
               growth := ⟨d1 ++ d2, ?_, ?_, ?_⟩,
               res_stable := ?_, exinv := h2.exinv,
               ex_growth := ⟨dl1 ++ dl2, ?_, ?_⟩, skip_cover := ?_ }
      · rw [hc2, hc1, List.append_assoc]
      · rw [hw2, hw1, List.append_assoc]
      · intro x hx
        rcases List.mem_append.mp hx with hx | hx
        · exact hf1 x hx
        · exact hf2 x hx
      · intro x hx
        have hx1 : x ∈ (scanOne flags st ex task).1.completed_tasks ∨
            x ∈ (scanOne flags st ex task).1.failed_tasks := by
          rcases hx with hx | hx
          · exact Or.inl (hc1 ▸ List.mem_append_left _ hx)
          · exact Or.inr (h1.failed_eq.symm ▸ hx)
        rw [h2.res_stable x hx1, h1.res_stable x hx]
      · rw [hdl2, hdl1, List.append_assoc]
      · exact List.Sublist.append hsub1 hsub2
      · intro u hu hflag
        rcases List.mem_cons.mp hu with rfl | hu
        · have := h1.skip_cover u (List.mem_singleton_self _) hflag
          rw [hc2]
          exact List.mem_append_left _ this
        · exact h2.skip_cover u hu hflag

theorem scanTasks_step (flags : SkipFlags) (st : RunState) (hInv : Inv flags st) :
    ScanStep flags st [] st.tasks (scanTasks flags st) :=
  scanList_step flags st.tasks st [] hInv (fun _ hu => hu) (by
    intro u hu
    exact absurd hu (List.not_mem_nil u))

theorem ScanStep_nfat {flags : SkipFlags} {st : RunState} {ex l : List Task}
    {out : RunState × List Task} (hInv : Inv flags st)
    (hs : ScanStep flags st ex l out) (hn : NFat st) : NFat out.1 := by
  intro e he hsk r hr
  rw [hs.trace_eq] at he
  rw [hs.res_stable _ (hInv.trace_resolved e he)] at hr
  exact hn e he hsk r hr

theorem ScanStep_ex_nodup {flags : SkipFlags} {st : RunState}
    {out : RunState × List Task}
    (hnd : (st.tasks.map Task.task_id).Nodup)
    (hs : ScanStep flags st [] st.tasks out) :
    (out.2.map Task.task_id).Nodup := by
  obtain ⟨dl, he, hsub⟩ := hs.ex_growth
  rw [he, List.nil_append]
  exact List.Nodup.sublist (List.Sublist.map Task.task_id hsub) hnd

theorem Inv_exec_completed (flags : SkipFlags) (st : RunState) (u : Task)
    (r : TaskResult) (hInv : Inv flags st) (hm : u ∈ st.tasks)
    (hns : skipRequested flags u.task_id = false)
    (hcan : u.can_execute st.completed_tasks = true)
    (hfc : u.task_id ∉ st.completed_tasks) (hff : u.task_id ∉ st.failed_tasks)
    (hid : r.task_id = u.task_id) (hstat : r.status = TaskStatus.completed)
    (newctx : Context) (newcw : List String)
    (hck : newctx.map Prod.fst = newcw) (hcwn : newcw.Nodup)
    (hcwc : ∀ x ∈ newcw, x ∈ st.completed_tasks ++ [u.task_id])
    (hcwns : ∀ x ∈ newcw, skipRequested flags x = false)
    (hccr : ∀ x ∈ newcw, ∃ r2,
        alookup (dictSet st.results u.task_id r) x = some r2 ∧
        r2.status = TaskStatus.completed) :
    Inv flags (RunState.mk st.tasks newctx (dictSet st.results u.task_id r)
      (st.completed_tasks ++ [u.task_id]) st.failed_tasks
      (st.trace ++ [⟨u, st.completed_tasks⟩])
      (st.resultWrites ++ [u.task_id]) newcw) := by
  have hfr : u.task_id ∉ st.resultWrites := fun h =>
    (hInv.resW_sub _ h).elim hfc hff
  have hfk : u.task_id ∉ st.results.map Prod.fst := by
    rw [hInv.res_keys]; exact hfr
  have htrid : u.task_id ∉ st.trace.map (fun e => e.task.task_id) := by
    intro h
    obtain ⟨e, he, heq⟩ := List.mem_map.mp h
    rcases hInv.trace_resolved e he with hc | hf
    · exact hfc (heq ▸ hc)
    · exact hff (heq ▸ hf)
  refine { complete_sub := ?_, failed_sub := hInv.failed_sub,
           complete_nodup := ?_, failed_nodup := hInv.failed_nodup,
           disj := ?_, res_keys := ?_, ctx_keys := hck,
           resW_sub := ?_, resW_nodup := ?_,
           ctxW_nodup := hcwn, ctxW_completed := hcwc,
           ctxW_noskip := hcwns, ctx_completed_res := hccr,
           failed_noskip := hInv.failed_noskip,
           trace_nodup := ?_, trace_resolved := ?_,
           trace_noskip := ?_, trace_can := ?_,
           resolved_res := ?_, skipflag_res := ?_ }
  · intro x hx
    rcases List.mem_append.mp hx with hx | hx
    · exact hInv.complete_sub x hx
    · rcases List.mem_singleton.mp hx with rfl
      exact List.mem_map_of_mem Task.task_id hm
  · simpa [List.nodup_append] using ⟨hInv.complete_nodup, fun h => hfc h⟩
  · intro x hx
    rcases List.mem_append.mp hx with hx | hx
    · exact hInv.disj x hx
    · rcases List.mem_singleton.mp hx with rfl
      exact hff
  · show (dictSet st.results u.task_id r).map Prod.fst = _
    rw [map_fst_dictSet _ _ _ hfk, hInv.res_keys]
  · intro x hx
    rcases List.mem_append.mp hx with hx | hx
    · rcases hInv.resW_sub x hx with h | h
      · exact Or.inl (List.mem_append_left _ h)
      · exact Or.inr h
    · rcases List.mem_singleton.mp hx with rfl
      exact Or.inl (List.mem_append_right _ (List.mem_singleton_self _))
  · simpa [List.nodup_append] using ⟨hInv.resW_nodup, fun h => hfr h⟩
  · show ((st.trace ++ [({ task := u, completed_at_call := st.completed_tasks } : TraceEntry)]).map
      (fun e => e.task.task_id)).Nodup
    rw [List.map_append]
    refine List.Nodup.append hInv.trace_nodup (by simp) ?_
    intro a ha hb
    simp only [List.map_cons, List.map_nil, List.mem_singleton] at hb
    exact htrid (hb ▸ ha)
  · intro e he
    rcases List.mem_append.mp he with he | he
    · rcases hInv.trace_resolved e he with h | h
      · exact Or.inl (List.mem_append_left _ h)
      · exact Or.inr h
    · rcases List.mem_singleton.mp he with rfl
      exact Or.inl (List.mem_append_right _ (List.mem_singleton_self _))
  · intro e he
    rcases List.mem_append.mp he with he | he
    · exact hInv.trace_noskip e he
    · rcases List.mem_singleton.mp he with rfl
      exact hns
  · intro e he
    rcases List.mem_append.mp he with he | he
    · exact hInv.trace_can e he
    · rcases List.mem_singleton.mp he with rfl
      exact hcan
  · intro x hx
    by_cases hxe : x = u.task_id
    · subst hxe
      exact ⟨r, alookup_dictSet_self _ _ _, hid, Or.inl hstat⟩
    · have hx2 : x ∈ st.completed_tasks ∨ x ∈ st.failed_tasks := by
        rcases hx with hx | hx
        · rcases List.mem_append.mp hx with hx | hx
          · exact Or.inl hx
          · exact absurd (List.mem_singleton.mp hx) hxe
        · exact Or.inr hx
      obtain ⟨r2, hr2, hid2, hs2⟩ := hInv.resolved_res x hx2
      exact ⟨r2, by rw [alookup_dictSet_ne _ _ _ _ hxe]; exact hr2, hid2, hs2⟩
  · intro x hfl r2 hr2
    have hxe : x ≠ u.task_id := fun he => by
      rw [he, hns] at hfl
      exact Bool.false_ne_true hfl
    rw [alookup_dictSet_ne _ _ _ _ hxe] at hr2
    exact hInv.skipflag_res x hfl r2 hr2

theorem Inv_exec_failed (flags : SkipFlags) (st : RunState) (u : Task)
    (r : TaskResult) (hInv : Inv flags st) (hm : u ∈ st.tasks)
    (hns : skipRequested flags u.task_id = false)
    (hcan : u.can_execute st.completed_tasks = true)
    (hfc : u.task_id ∉ st.completed_tasks) (hff : u.task_id ∉ st.failed_tasks)
    (hid : r.task_id = u.task_id) (hstat : r.status = TaskStatus.failed) :
    Inv flags (RunState.mk st.tasks st.context
      (dictSet st.results u.task_id r) st.completed_tasks
      (st.failed_tasks ++ [u.task_id])
      (st.trace ++ [⟨u, st.completed_tasks⟩])
      (st.resultWrites ++ [u.task_id]) st.contextWrites) := by
  have hfr : u.task_id ∉ st.resultWrites := fun h =>
    (hInv.resW_sub _ h).elim hfc hff
  have hfk : u.task_id ∉ st.results.map Prod.fst := by
    rw [hInv.res_keys]; exact hfr
  have htrid : u.task_id ∉ st.trace.map (fun e => e.task.task_id) := by
    intro h
    obtain ⟨e, he, heq⟩ := List.mem_map.mp h
    rcases hInv.trace_resolved e he with hc | hf
    · exact hfc (heq ▸ hc)
    · exact hff (heq ▸ hf)
  refine { complete_sub := hInv.complete_sub, failed_sub := ?_,
           complete_nodup := hInv.complete_nodup, failed_nodup := ?_,
           disj := ?_, res_keys := ?_, ctx_keys := hInv.ctx_keys,
           resW_sub := ?_, resW_nodup := ?_,
           ctxW_nodup := hInv.ctxW_nodup, ctxW_completed := hInv.ctxW_completed,
           ctxW_noskip := hInv.ctxW_noskip, ctx_completed_res := ?_,
           failed_noskip := ?_,
           trace_nodup := ?_, trace_resolved := ?_,
           trace_noskip := ?_, trace_can := ?_,
           resolved_res := ?_, skipflag_res := ?_ }
  · intro x hx
    rcases List.mem_append.mp hx with hx | hx
    · exact hInv.failed_sub x hx
    · rcases List.mem_singleton.mp hx with rfl
      exact List.mem_map_of_mem Task.task_id hm
  · simpa [List.nodup_append] using ⟨hInv.failed_nodup, fun h => hff h⟩
  · intro x hx hmem
    rcases List.mem_append.mp hmem with h | h
    · exact hInv.disj x hx h
    · rcases List.mem_singleton.mp h with h
      exact hfc (h ▸ hx)
  · show (dictSet st.results u.task_id r).map Prod.fst = _
    rw [map_fst_dictSet _ _ _ hfk, hInv.res_keys]
  · intro x hx
    rcases List.mem_append.mp hx with hx | hx
    · rcases hInv.resW_sub x hx with h | h
      · exact Or.inl h
      · exact Or.inr (List.mem_append_left _ h)
    · rcases List.mem_singleton.mp hx with rfl
      exact Or.inr (List.mem_append_right _ (List.mem_singleton_self _))
  · simpa [List.nodup_append] using ⟨hInv.resW_nodup, fun h => hfr h⟩
  · intro x hx
    obtain ⟨r2, hr2, hs2⟩ := hInv.ctx_completed_res x hx
    have hxe : x ≠ u.task_id := fun he =>
      hfc (he ▸ hInv.ctxW_completed x hx)
    exact ⟨r2, by rw [alookup_dictSet_ne _ _ _ _ hxe]; exact hr2, hs2⟩
  · intro x hx
    rcases List.mem_append.mp hx with hx | hx
    · exact hInv.failed_noskip x hx
    · rcases List.mem_singleton.mp hx with rfl
      exact hns
  · show ((st.trace ++ [({ task := u, completed_at_call := st.completed_tasks } : TraceEntry)]).map
      (fun e => e.task.task_id)).Nodup
    rw [List.map_append]
    refine List.Nodup.append hInv.trace_nodup (by simp) ?_
    intro a ha hb
    simp only [List.map_cons, List.map_nil, List.mem_singleton] at hb
    exact htrid (hb ▸ ha)
  · intro e he
    rcases List.mem_append.mp he with he | he
    · rcases hInv.trace_resolved e he with h | h
      · exact Or.inl h
      · exact Or.inr (List.mem_append_left _ h)
    · rcases List.mem_singleton.mp he with rfl
      exact Or.inr (List.mem_append_right _ (List.mem_singleton_self _))
  · intro e he
    rcases List.mem_append.mp he with he | he
    · exact hInv.trace_noskip e he
    · rcases List.mem_singleton.mp he with rfl
      exact hns
  · intro e he
    rcases List.mem_append.mp he with he | he
    · exact hInv.trace_can e he
    · rcases List.mem_singleton.mp he with rfl
      exact hcan
  · intro x hx
    by_cases hxe : x = u.task_id
    · subst hxe
      exact ⟨r, alookup_dictSet_self _ _ _, hid, Or.inr (Or.inl hstat)⟩
    · have hx2 : x ∈ st.completed_tasks ∨ x ∈ st.failed_tasks := by
        rcases hx with hx | hx
        · exact Or.inl hx
        · rcases List.mem_append.mp hx with hx | hx
          · exact Or.inr hx
          · exact absurd (List.mem_singleton.mp hx) hxe
      obtain ⟨r2, hr2, hid2, hs2⟩ := hInv.resolved_res x hx2
      exact ⟨r2, by rw [alookup_dictSet_ne _ _ _ _ hxe]; exact hr2, hid2, hs2⟩
  · intro x hfl r2 hr2
    have hxe : x ≠ u.task_id := fun he => by
      rw [he, hns] at hfl
      exact Bool.false_ne_true hfl
    rw [alookup_dictSet_ne _ _ _ _ hxe] at hr2
    exact hInv.skipflag_res x hfl r2 hr2

theorem execOne_eq_completed_truthy (st : RunState) (u : Task)
    (h1 : (u.agent.execute_task u st.context).status = TaskStatus.completed)
    (h2 : pyTruthy (u.agent.execute_task u st.context).output_path = true) :
    execOne st u =
      (RunState.mk st.tasks
        (dictSet st.context u.task_id
          { output_path := (u.agent.execute_task u st.context).output_path
            metadata := (u.agent.execute_task u st.context).metadata })
        (dictSet st.results u.task_id (u.agent.execute_task u st.context))
        (st.completed_tasks ++ [u.task_id]) st.failed_tasks
        (st.trace ++ [{ task := u, completed_at_call := st.completed_tasks }])
        (st.resultWrites ++ [u.task_id])
        (st.contextWrites ++ [u.task_id]), none) := by
  simp only [execOne, h1, h2, if_true]

theorem execOne_eq_completed_untruthy (st : RunState) (u : Task)
    (h1 : (u.agent.execute_task u st.context).status = TaskStatus.completed)
    (h2 : pyTruthy (u.agent.execute_task u st.context).output_path = false) :
    execOne st u =
      (RunState.mk st.tasks st.context
        (dictSet st.results u.task_id (u.agent.execute_task u st.context))
        (st.completed_tasks ++ [u.task_id]) st.failed_tasks
        (st.trace ++ [{ task := u, completed_at_call := st.completed_tasks }])
        (st.resultWrites ++ [u.task_id])
        st.contextWrites, none) := by
  simp only [execOne, h1, h2, if_true, Bool.false_eq_true, if_false]

theorem execOne_eq_failed (st : RunState) (u : Task)
    (h1 : (u.agent.execute_task u st.context).status = TaskStatus.failed) :
    execOne st u =
      (RunState.mk st.tasks st.context
        (dictSet st.results u.task_id (u.agent.execute_task u st.context))
        st.completed_tasks (st.failed_tasks ++ [u.task_id])
        (st.trace ++ [{ task := u, completed_at_call := st.completed_tasks }])
        (st.resultWrites ++ [u.task_id])
        st.contextWrites,
       if u.skippable then none
       else some (RunError.critical u.task_id
         (u.agent.execute_task u st.context).error)) := by
  simp only [execOne, h1]
  rw [if_neg (by decide), if_pos (by decide)]
  split <;> rfl

theorem execOne_spec (flags : SkipFlags) (st : RunState) (u : Task)
    (hInv : Inv flags st) (hm : u ∈ st.tasks)
    (hns : skipRequested flags u.task_id = false)
    (hcan : u.can_execute st.completed_tasks = true)
    (hfc : u.task_id ∉ st.completed_tasks) (hff : u.task_id ∉ st.failed_tasks) :
    ExecsSpec flags st [u] (execOne st u) := by
  have hid := execute_task_task_id u.agent u st.context
  have hres_ne : ∀ x, (x ∈ st.completed_tasks ∨ x ∈ st.failed_tasks) →
      x ≠ u.task_id := by
    intro x hx he
    rcases hx with h | h
    · exact hfc (he ▸ h)
    · exact hff (he ▸ h)
  have hfcw : u.task_id ∉ st.contextWrites := fun h =>
    hfc (hInv.ctxW_completed _ h)
  have hfckey : u.task_id ∉ st.context.map Prod.fst := by
    rw [hInv.ctx_keys]; exact hfcw
  rcases execute_task_status u.agent u st.context with hstat | hstat
  · by_cases htru : pyTruthy (u.agent.execute_task u st.context).output_path = true
    · rw [execOne_eq_completed_truthy st u hstat htru]
      refine { inv := Inv_exec_completed flags st u _ hInv hm hns hcan hfc hff
                 hid hstat _ _ ?_ ?_ ?_ ?_ ?_,
               tasks_eq := rfl, completed_mono := ?_,
               failed_mono := fun x hx => hx, len_mono := ?_, progress := ?_,
               new_from_ex := ?_, res_stable := ?_, nfat_none := ?_,
               err_critical := ?_, err_shape := ?_ }
      · rw [map_fst_dictSet _ _ _ hfckey, hInv.ctx_keys]
      · simpa [List.nodup_append] using ⟨hInv.ctxW_nodup, fun h => hfcw h⟩
      · intro x hx
        rcases List.mem_append.mp hx with h | h
        · exact List.mem_append_left _ (hInv.ctxW_completed x h)
        · exact List.mem_append_right _ h
      · intro x hx
        rcases List.mem_append.mp hx with h | h
        · exact hInv.ctxW_noskip x h
        · rcases List.mem_singleton.mp h with rfl
          exact hns
      · intro x hx
        rcases List.mem_append.mp hx with h | h
        · obtain ⟨r2, hr2, hs2⟩ := hInv.ctx_completed_res x h
          have hne : x ≠ u.task_id := fun he =>
            hfc (he ▸ hInv.ctxW_completed x h)
          exact ⟨r2, by rw [alookup_dictSet_ne _ _ _ _ hne]; exact hr2, hs2⟩
        · rcases List.mem_singleton.mp h with rfl
          exact ⟨_, alookup_dictSet_self _ _ _, hstat⟩
      · exact fun x hx => List.mem_append_left _ hx
      · simp
      · intro _
        simp
        omega
      · intro x hx
        rcases hx with hx | hx
        · rcases List.mem_append.mp hx with h | h
          · exact Or.inl (Or.inl h)
          · rcases List.mem_singleton.mp h with rfl
            exact Or.inr ⟨u, List.mem_singleton_self _, rfl⟩
        · exact Or.inl (Or.inr hx)
      · intro x hx
        exact alookup_dictSet_ne _ _ _ _ (hres_ne x hx)
      · intro _ hn e he hsk r2 hr2
        rcases List.mem_append.mp he with he | he
        · rw [alookup_dictSet_ne _ _ _ _
            (hres_ne _ (hInv.trace_resolved e he))] at hr2
          exact hn e he hsk r2 hr2
        · rcases List.mem_singleton.mp he with rfl
          have hr2b : alookup (dictSet st.results u.task_id
              (u.agent.execute_task u st.context)) u.task_id = some r2 := hr2
          rw [alookup_dictSet_self] at hr2b
          obtain rfl := Option.some.inj hr2b
          intro hbad
          rw [hstat] at hbad
          cases hbad
      · intro e he
        simp at he
      · intro e he
        simp at he
    · have htru2 : pyTruthy (u.agent.execute_task u st.context).output_path = false := by
        revert htru
        cases pyTruthy (u.agent.execute_task u st.context).output_path <;> simp
      rw [execOne_eq_completed_untruthy st u hstat htru2]
      refine { inv := Inv_exec_completed flags st u _ hInv hm hns hcan hfc hff
                 hid hstat _ _ hInv.ctx_keys hInv.ctxW_nodup ?_
                 hInv.ctxW_noskip ?_,
               tasks_eq := rfl, completed_mono := ?_,
               failed_mono := fun x hx => hx, len_mono := ?_, progress := ?_,
               new_from_ex := ?_, res_stable := ?_, nfat_none := ?_,
               err_critical := ?_, err_shape := ?_ }
      · intro x hx
        exact List.mem_append_left _ (hInv.ctxW_completed x hx)
      · intro x hx
        obtain ⟨r2, hr2, hs2⟩ := hInv.ctx_completed_res x hx
        have hne : x ≠ u.task_id := fun he =>
          hfc (he ▸ hInv.ctxW_completed x hx)
        exact ⟨r2, by rw [alookup_dictSet_ne _ _ _ _ hne]; exact hr2, hs2⟩
      · exact fun x hx => List.mem_append_left _ hx
      · simp
      · intro _
        simp
        omega
      · intro x hx
        rcases hx with hx | hx
        · rcases List.mem_append.mp hx with h | h
          · exact Or.inl (Or.inl h)
          · rcases List.mem_singleton.mp h with rfl
            exact Or.inr ⟨u, List.mem_singleton_self _, rfl⟩
        · exact Or.inl (Or.inr hx)
      · intro x hx
        exact alookup_dictSet_ne _ _ _ _ (hres_ne x hx)
      · intro _ hn e he hsk r2 hr2
        rcases List.mem_append.mp he with he | he
        · rw [alookup_dictSet_ne _ _ _ _
            (hres_ne _ (hInv.trace_resolved e he))] at hr2
          exact hn e he hsk r2 hr2
        · rcases List.mem_singleton.mp he with rfl
          have hr2b : alookup (dictSet st.results u.task_id
              (u.agent.execute_task u st.context)) u.task_id = some r2 := hr2
          rw [alookup_dictSet_self] at hr2b
          obtain rfl := Option.some.inj hr2b
          intro hbad
          rw [hstat] at hbad
          cases hbad
      · intro e he
        simp at he
      · intro e he
        simp at he
  · rw [execOne_eq_failed st u hstat]
    have hinvf := Inv_exec_failed flags st u _ hInv hm hns hcan hfc hff hid hstat
    by_cases hskip : u.skippable = true
    · rw [if_pos hskip]
      refine { inv := hinvf, tasks_eq := rfl,
               completed_mono := fun x hx => hx,
               failed_mono := fun x hx => List.mem_append_left _ hx,
               len_mono := ?_, progress := ?_,
               new_from_ex := ?_, res_stable := ?_, nfat_none := ?_,
               err_critical := ?_, err_shape := ?_ }
      · simp
      · intro _
        simp
        omega
      · intro x hx
        rcases hx with hx | hx
        · exact Or.inl (Or.inl hx)
        · rcases List.mem_append.mp hx with h | h
          · exact Or.inl (Or.inr h)
          · rcases List.mem_singleton.mp h with rfl
            exact Or.inr ⟨u, List.mem_singleton_self _, rfl⟩
      · intro x hx
        exact alookup_dictSet_ne _ _ _ _ (hres_ne x hx)
      · intro _ hn e he hsk r2 hr2
        rcases List.mem_append.mp he with he | he
        · rw [alookup_dictSet_ne _ _ _ _
            (hres_ne _ (hInv.trace_resolved e he))] at hr2
          exact hn e he hsk r2 hr2
        · rcases List.mem_singleton.mp he with rfl
          have : u.skippable = false := hsk
          rw [hskip] at this
          cases this
      · intro e he
        simp at he
      · intro e he
        simp at he
    · rw [if_neg hskip]
      have hskipf : u.skippable = false := by
        revert hskip
        cases u.skippable <;> simp
      refine { inv := hinvf, tasks_eq := rfl,
               completed_mono := fun x hx => hx,
               failed_mono := fun x hx => List.mem_append_left _ hx,
               len_mono := ?_, progress := ?_,
               new_from_ex := ?_, res_stable := ?_, nfat_none := ?_,
               err_critical := ?_, err_shape := ?_ }
      · simp
      · intro _
        simp
        omega
      · intro x hx
        rcases hx with hx | hx
        · exact Or.inl (Or.inl hx)
        · rcases List.mem_append.mp hx with h | h
          · exact Or.inl (Or.inr h)
          · rcases List.mem_singleton.mp h with rfl
            exact Or.inr ⟨u, List.mem_singleton_self _, rfl⟩
      · intro x hx
        exact alookup_dictSet_ne _ _ _ _ (hres_ne x hx)
      · intro he
        simp at he
      · intro e he
        refine ⟨u.task_id, (u.agent.execute_task u st.context).error, ?_⟩
        have he2 := Option.some.inj he
        exact he2.symm
      · intro e he hn
        have he2 := Option.some.inj he
        refine ⟨u, u.agent.execute_task u st.context, st.trace,
          { task := u, completed_at_call := st.completed_tasks },
          hskipf, hstat, he2.symm, ?_, rfl, rfl, ?_⟩
        · exact alookup_dictSet_self _ _ _
        · intro e2 he2m hsk2 r2 hr2
          rw [alookup_dictSet_ne _ _ _ _
            (hres_ne _ (hInv.trace_resolved e2 he2m))] at hr2
          exact hn e2 he2m hsk2 r2 hr2

theorem execTasks_spec (flags : SkipFlags) (ex : List Task) :
    ∀ st : RunState, Inv flags st → ExInv flags st ex →
    (ex.map Task.task_id).Nodup →
    ExecsSpec flags st ex (execTasks st ex) := by
  induction ex with
  | nil =>
      intro st hInv _ _
      show ExecsSpec flags st [] (st, none)
      exact { inv := hInv, tasks_eq := rfl,
              completed_mono := fun x hx => hx, failed_mono := fun x hx => hx,
              len_mono := le_refl _, progress := fun h => absurd rfl h,
              new_from_ex := fun x hx => Or.inl hx,
              res_stable := fun x _ => rfl,
              nfat_none := fun _ hn => hn,
              err_critical := by intro e he; simp at he,
              err_shape := by intro e he; simp at he }
  | cons u rest ih =>
      intro st hInv hexinv hnd
      rw [List.map_cons, List.nodup_cons] at hnd
      obtain ⟨hnd1, hndr⟩ := hnd
      obtain ⟨hm, hns, hcan, hfc, hff⟩ := hexinv u (List.mem_cons_self _ _)
      have h1 := execOne_spec flags st u hInv hm hns hcan hfc hff
      rcases hoe : execOne st u with ⟨st1, oe⟩
      rw [hoe] at h1
      cases oe with
      | none =>
          have hgoal : execTasks st (u :: rest) = execTasks st1 rest := by
            simp only [execTasks, hoe]
          rw [hgoal]
          have hexinv1 : ExInv flags st1 rest := by
            intro v hv
            obtain ⟨hm2, hns2, hcan2, hfc2, hff2⟩ :=
              hexinv v (List.mem_cons_of_mem _ hv)
            have hvne : v.task_id ≠ u.task_id := fun he =>
              hnd1 (he ▸ List.mem_map_of_mem Task.task_id hv)
            have hsub1 : st.completed_tasks ⊆ st1.completed_tasks := by
              intro a ha
              exact h1.completed_mono a ha
            refine ⟨h1.tasks_eq.symm ▸ hm2, hns2,
              can_execute_mono hsub1 hcan2, ?_, ?_⟩
            · intro hmem
              rcases h1.new_from_ex v.task_id (Or.inl hmem) with h | h
              · exact h.elim hfc2 hff2
              · obtain ⟨w, hw, hwid⟩ := h
                rcases List.mem_singleton.mp hw with rfl
                exact hvne hwid.symm
            · intro hmem
              rcases h1.new_from_ex v.task_id (Or.inr hmem) with h | h
              · exact h.elim hfc2 hff2
              · obtain ⟨w, hw, hwid⟩ := h
                rcases List.mem_singleton.mp hw with rfl
                exact hvne hwid.symm
          have h2 := ih st1 h1.inv hexinv1 hndr
          refine { inv := h2.inv, tasks_eq := h2.tasks_eq.trans h1.tasks_eq,
                   completed_mono := fun x hx =>
                     h2.completed_mono x (h1.completed_mono x hx),
                   failed_mono := fun x hx =>
                     h2.failed_mono x (h1.failed_mono x hx),
                   len_mono := le_trans h1.len_mono h2.len_mono,
                   progress := fun _ =>
                     le_trans (h1.progress (by simp)) h2.len_mono,
                   new_from_ex := ?_, res_stable := ?_, nfat_none := ?_,
                   err_critical := h2.err_critical, err_shape := ?_ }
          · intro x hx
            rcases h2.new_from_ex x hx with h | h
            · rcases h1.new_from_ex x h with h | h
              · exact Or.inl h
              · obtain ⟨w, hw, hwid⟩ := h
                rcases List.mem_singleton.mp hw with rfl
                exact Or.inr ⟨w, List.mem_cons_self _ _, hwid⟩
            · obtain ⟨w, hw, hwid⟩ := h
              exact Or.inr ⟨w, List.mem_cons_of_mem _ hw, hwid⟩
          · intro x hx
            have hx1 : x ∈ st1.completed_tasks ∨ x ∈ st1.failed_tasks := by
              rcases hx with h | h
              · exact Or.inl (h1.completed_mono x h)
              · exact Or.inr (h1.failed_mono x h)
            rw [h2.res_stable x hx1, h1.res_stable x hx]
          · intro hnone hn
            exact h2.nfat_none hnone (h1.nfat_none rfl hn)
          · intro e he hn
            exact h2.err_shape e he (h1.nfat_none rfl hn)
      | some err =>
          have hgoal : execTasks st (u :: rest) = (st1, some err) := by
            simp only [execTasks, hoe]
          rw [hgoal]
          refine { inv := h1.inv, tasks_eq := h1.tasks_eq,
                   completed_mono := h1.completed_mono,
                   failed_mono := h1.failed_mono,
                   len_mono := h1.len_mono,
                   progress := fun _ => h1.progress (by simp),
                   new_from_ex := ?_, res_stable := h1.res_stable,
                   nfat_none := by intro h hn; simp at h,
                   err_critical := h1.err_critical,
                   err_shape := h1.err_shape }
          · intro x hx
            rcases h1.new_from_ex x hx with h | h
            · exact Or.inl h
            · obtain ⟨w, hw, hwid⟩ := h
              rcases List.mem_singleton.mp hw with rfl
              exact Or.inr ⟨w, List.mem_cons_self _ _, hwid⟩

theorem cover_of_length {ids c f : List String} (hids : ids.Nodup)
    (hc : c.Nodup) (hf : f.Nodup) (hd : ∀ x ∈ c, x ∉ f)
    (hcs : ∀ x ∈ c, x ∈ ids) (hfs : ∀ x ∈ f, x ∈ ids)
    (hlen : ids.length ≤ c.length + f.length) :
    ∀ id ∈ ids, id ∈ c ∨ id ∈ f := by
  classical
  have hdisj : Disjoint c.toFinset f.toFinset := by
    rw [List.disjoint_toFinset_iff_disjoint]
    intro a ha hb
    exact hd a ha hb
  have hsub : c.toFinset ∪ f.toFinset ⊆ ids.toFinset := by
    intro a ha
    rcases Finset.mem_union.mp ha with h | h
    · exact List.mem_toFinset.mpr (hcs a (List.mem_toFinset.mp h))
    · exact List.mem_toFinset.mpr (hfs a (List.mem_toFinset.mp h))
  have hcard : ids.toFinset.card ≤ (c.toFinset ∪ f.toFinset).card := by
    rw [Finset.card_union_of_disjoint hdisj,
      List.toFinset_card_of_nodup hc, List.toFinset_card_of_nodup hf,
      List.toFinset_card_of_nodup hids]
    exact hlen
  have heq := Finset.eq_of_subset_of_card_le hsub hcard
  intro id hid
  have h2 : id ∈ ids.toFinset := List.mem_toFinset.mpr hid
  rw [← heq] at h2
  rcases Finset.mem_union.mp h2 with h | h
  · exact Or.inl (List.mem_toFinset.mp h)
  · exact Or.inr (List.mem_toFinset.mp h)

theorem cover_of_remaining_empty {st : RunState}
    (hrem : remainingIds st = []) :
    ∀ id ∈ st.tasks.map Task.task_id,
      id ∈ st.completed_tasks ∨ id ∈ st.failed_tasks := by
  intro id hid
  by_contra hcon
  push_neg at hcon
  have hmem : id ∈ remainingIds st := by
    unfold remainingIds
    refine List.mem_filter.mpr ⟨hid, ?_⟩
    simp [hcon.1, hcon.2]
  rw [hrem] at hmem
  exact absurd hmem (List.not_mem_nil id)

theorem scan_unreach {flags : SkipFlags} {st st1 : RunState} {ex : List Task}
    (hscan : ScanStep flags st [] st.tasks (st1, ex))
    {t : Task} (hflag : skipRequested flags t.task_id = false)
    (hc : t.task_id ∉ st.completed_tasks) (hf : t.task_id ∉ st.failed_tasks) :
    t.task_id ∉ st1.completed_tasks ∧ t.task_id ∉ st1.failed_tasks := by
  obtain ⟨d, hc1, _, hfl⟩ := hscan.growth
  constructor
  · intro hmem
    have hmem2 : t.task_id ∈ st.completed_tasks ++ d := hc1 ▸ hmem
    rcases List.mem_append.mp hmem2 with h | h
    · exact hc h
    · have hft := hfl _ h
      rw [hflag] at hft
      simp at hft
  · intro hmem
    exact hf (hscan.failed_eq ▸ hmem)

theorem exec_unreach {flags : SkipFlags} {st1 st2 : RunState} {ex : List Task}
    {oe : Option RunError} (hginv : Inv flags st1)
    (hnd1 : (st1.tasks.map Task.task_id).Nodup)
    (hexinv : ExInv flags st1 ex)
    (hexec : ExecsSpec flags st1 ex (st2, oe))
    {t : Task} {dep : String} (hm : t ∈ st1.tasks) (hdep : dep ∈ t.dependencies)
    (hmiss : dep ∉ st1.tasks.map Task.task_id)
    (h1c : t.task_id ∉ st1.completed_tasks)
    (h1f : t.task_id ∉ st1.failed_tasks) :
    t.task_id ∉ st2.completed_tasks ∧ t.task_id ∉ st2.failed_tasks := by
  have key : (t.task_id ∈ st2.completed_tasks ∨ t.task_id ∈ st2.failed_tasks) →
      False := by
    intro hx
    rcases hexec.new_from_ex _ hx with h | h
    · exact h.elim h1c h1f
    · obtain ⟨u, hu, huid⟩ := h
      obtain ⟨hum, _, hucan, _, _⟩ := hexinv u hu
      have hut : u = t := nodup_map_inj hnd1 hum hm huid
      subst hut
      have hdepin := (can_execute_iff _ _).mp hucan dep hdep
      exact hmiss (hginv.complete_sub dep hdepin)
  exact ⟨fun h => key (Or.inl h), fun h => key (Or.inr h)⟩

theorem LoopSpec_exit (flags : SkipFlags) (fuel : Nat) (st : RunState)
    (hInv : Inv flags st) (hnd : (st.tasks.map Task.task_id).Nodup)
    (hcond : ¬ (st.completed_tasks.length + st.failed_tasks.length <
      st.tasks.length)) :
    LoopSpec flags fuel st (st, KickoffOutcome.ok st.results) := by
  refine { inv := hInv, tasks_eq := rfl, completed_mono := fun x hx => hx,
           not_fuelOut := fun _ => by simp,
           ok_results := ?_, ok_cover := ?_, stuck_shape := ?_,
           fatal_shape := ?_, no_fatal := fun hn _ => hn,
           unreach := fun t dep _ _ _ _ hc hf => ⟨hc, hf⟩,
           skipc := fun _ hlt => absurd hlt hcond }
  · intro r hr
    exact (KickoffOutcome.ok.inj hr).symm
  · intro r _ id hid
    have hlen : (st.tasks.map Task.task_id).length ≤
        st.completed_tasks.length + st.failed_tasks.length := by
      rw [List.length_map]
      omega
    exact cover_of_length hnd hInv.complete_nodup hInv.failed_nodup
      hInv.disj hInv.complete_sub hInv.failed_sub hlen id hid
  · intro rem h
    simp at h
  · intro _ id err h
    simp at h

theorem LoopSpec_fuelOut (flags : SkipFlags) (st : RunState)
    (hInv : Inv flags st)
    (hcond : st.completed_tasks.length + st.failed_tasks.length <
      st.tasks.length) :
    LoopSpec flags 0 st (st, KickoffOutcome.fuelOut) := by
  refine { inv := hInv, tasks_eq := rfl, completed_mono := fun x hx => hx,
           not_fuelOut := ?_,
           ok_results := ?_, ok_cover := ?_, stuck_shape := ?_,
           fatal_shape := ?_, no_fatal := fun hn _ => hn,
           unreach := fun t dep _ _ _ _ hc hf => ⟨hc, hf⟩,
           skipc := fun h0 => absurd h0 (Nat.lt_irrefl 0) }
  · intro hle
    omega
  · intro r hr
    simp at hr
  · intro r hr
    simp at hr
  · intro rem h
    simp at h
  · intro _ id err h
    simp at h

theorem kickoffLoop_spec (flags : SkipFlags) :
    ∀ (fuel : Nat) (st : RunState), Inv flags st →
    (st.tasks.map Task.task_id).Nodup →
    LoopSpec flags fuel st (kickoffLoop flags fuel st) := by
  intro fuel
  induction fuel with
  | zero =>
      intro st hInv hnd
      by_cases hcond : st.completed_tasks.length + st.failed_tasks.length <
        st.tasks.length
      · rw [show kickoffLoop flags 0 st = (st, KickoffOutcome.fuelOut) by
          simp [kickoffLoop, hcond]]
        exact LoopSpec_fuelOut flags st hInv hcond
      · rw [show kickoffLoop flags 0 st = (st, KickoffOutcome.ok st.results) by
          simp [kickoffLoop, hcond]]
        exact LoopSpec_exit flags 0 st hInv hnd hcond
  | succ fuel ih =>
      intro st hInv hnd
      by_cases hcond : st.completed_tasks.length + st.failed_tasks.length <
        st.tasks.length
      · have hscan := scanTasks_step flags st hInv
        rcases hsc : scanTasks flags st with ⟨st1, ex⟩
        rw [hsc] at hscan
        have hginv : Inv flags st1 := hscan.inv
        have htasks1 : st1.tasks = st.tasks := hscan.tasks_eq
        have hnd1 : (st1.tasks.map Task.task_id).Nodup := by
          rw [htasks1]; exact hnd
        obtain ⟨d, hcomp1, hw1, hflag1⟩ := hscan.growth
        have hfail1 : st1.failed_tasks = st.failed_tasks := hscan.failed_eq
        have hlen1 : st.completed_tasks.length + st.failed_tasks.length ≤
            st1.completed_tasks.length + st1.failed_tasks.length := by
          have hc1 : st1.completed_tasks = st.completed_tasks ++ d := hcomp1
          rw [hc1, hfail1]
          simp
        have hmono1 : ∀ x ∈ st.completed_tasks, x ∈ st1.completed_tasks := by
          intro x hx
          have hc1 : st1.completed_tasks = st.completed_tasks ++ d := hcomp1
          rw [hc1]
          exact List.mem_append_left _ hx
        by_cases hexe : ex.isEmpty = true
        · by_cases hrem : (remainingIds st1).isEmpty = true
          · rw [show kickoffLoop flags (fuel + 1) st =
                (st1, KickoffOutcome.ok st1.results) by
              simp [kickoffLoop, hcond, hsc, hexe, hrem]]
            have hremnil : remainingIds st1 = [] := by
              rwa [List.isEmpty_iff] at hrem
            refine { inv := hginv, tasks_eq := htasks1,
                     completed_mono := hmono1,
                     not_fuelOut := fun _ => by simp,
                     ok_results := fun r hr => (KickoffOutcome.ok.inj hr).symm,
                     ok_cover := ?_, stuck_shape := ?_, fatal_shape := ?_,
                     no_fatal := fun hn _ => ScanStep_nfat hInv hscan hn,
                     unreach := ?_,
                     skipc := fun _ _ t ht hf => hscan.skip_cover t ht hf }
            · intro r _ id hid
              refine cover_of_remaining_empty hremnil id ?_
              rw [htasks1]
              exact hid
            · intro rem h
              simp at h
            · intro _ id err h
              simp at h
            · intro t dep hm hdep hmiss hflag hc hf
              exact scan_unreach hscan hflag hc hf
          · rw [show kickoffLoop flags (fuel + 1) st =
                (st1, KickoffOutcome.error (RunError.stuck (remainingIds st1))) by
              simp [kickoffLoop, hcond, hsc, hexe, hrem]]
            refine { inv := hginv, tasks_eq := htasks1,
                     completed_mono := hmono1,
                     not_fuelOut := fun _ => by simp,
                     ok_results := ?_, ok_cover := ?_,
                     stuck_shape := ?_, fatal_shape := ?_,
                     no_fatal := fun hn _ => ScanStep_nfat hInv hscan hn,
                     unreach := ?_,
                     skipc := fun _ _ t ht hf => hscan.skip_cover t ht hf }
            · intro r hr
              simp at hr
            · intro r hr
              simp at hr
            · intro rem h
              have h2 := RunError.stuck.inj (KickoffOutcome.error.inj h)
              refine ⟨h2.symm, ?_⟩
              intro hnil
              rw [h2.symm] at hnil
              rw [hnil] at hrem
              simp at hrem
            · intro _ id err h
              have h2 := KickoffOutcome.error.inj h
              simp at h2
            · intro t dep hm hdep hmiss hflag hc hf
              exact scan_unreach hscan hflag hc hf
        · have hexne : ex ≠ [] := by
            intro h
            rw [h] at hexe
            simp at hexe
          have hexinv : ExInv flags st1 ex := hscan.exinv
          have hexnd := ScanStep_ex_nodup hnd hscan
          have hexec := execTasks_spec flags ex st1 hginv hexinv hexnd
          rcases hxe : execTasks st1 ex with ⟨st2, oe⟩
          rw [hxe] at hexec
          have htasks2 : st2.tasks = st.tasks := hexec.tasks_eq.trans htasks1
          have hlen2 : st1.completed_tasks.length + st1.failed_tasks.length + 1 ≤
              st2.completed_tasks.length + st2.failed_tasks.length :=
            hexec.progress hexne
          have hmono2 : ∀ x ∈ st.completed_tasks, x ∈ st2.completed_tasks :=
            fun x hx => hexec.completed_mono x (hmono1 x hx)
          cases oe with
          | none =>
              have hnd2 : (st2.tasks.map Task.task_id).Nodup := by
                rw [htasks2]; exact hnd
              have ihs := ih st2 hexec.inv hnd2
              rw [show kickoffLoop flags (fuel + 1) st =
                  kickoffLoop flags fuel st2 by
                simp [kickoffLoop, hcond, hsc, hexe, hxe]]
              refine { inv := ihs.inv, tasks_eq := ihs.tasks_eq.trans htasks2,
                       completed_mono := fun x hx =>
                         ihs.completed_mono x (hmono2 x hx),
                       not_fuelOut := ?_, ok_results := ihs.ok_results,
                       ok_cover := ?_, stuck_shape := ihs.stuck_shape,
                       fatal_shape := ?_, no_fatal := ?_, unreach := ?_,
                       skipc := fun _ _ t ht hf => ihs.completed_mono _
                         (hexec.completed_mono _ (hscan.skip_cover t ht hf)) }
              · intro hle
                refine ihs.not_fuelOut ?_
                rw [htasks2]
                omega
              · intro r hr id hid
                refine ihs.ok_cover r hr id ?_
                rw [htasks2]
                exact hid
              · intro hn id err h
                have hn1 := ScanStep_nfat hInv hscan hn
                have hn2 := hexec.nfat_none rfl hn1
                exact ihs.fatal_shape hn2 id err h
              · intro hn hne
                have hn1 := ScanStep_nfat hInv hscan hn
                have hn2 := hexec.nfat_none rfl hn1
                exact ihs.no_fatal hn2 hne
              · intro t dep hm hdep hmiss hflag hc hf
                obtain ⟨h1c, h1f⟩ := scan_unreach hscan hflag hc hf
                have hm1 : t ∈ st1.tasks := by
                  rw [htasks1]; exact hm
                have hmiss1 : dep ∉ st1.tasks.map Task.task_id := by
                  rw [htasks1]; exact hmiss
                obtain ⟨h2c, h2f⟩ := exec_unreach hginv hnd1 hexinv hexec
                  hm1 hdep hmiss1 h1c h1f
                refine ihs.unreach t dep ?_ hdep ?_ hflag h2c h2f
                · rw [htasks2]; exact hm
                · rw [htasks2]; exact hmiss
          | some err =>
              obtain ⟨cid, cerr, rfl⟩ := hexec.err_critical err rfl
              rw [show kickoffLoop flags (fuel + 1) st =
                  (st2, KickoffOutcome.error (RunError.critical cid cerr)) by
                simp [kickoffLoop, hcond, hsc, hexe, hxe]]
              refine { inv := hexec.inv, tasks_eq := htasks2,
                       completed_mono := hmono2,
                       not_fuelOut := fun _ => by simp,
                       ok_results := ?_, ok_cover := ?_, stuck_shape := ?_,
                       fatal_shape := ?_, no_fatal := ?_, unreach := ?_,
                       skipc := fun _ _ t ht hf => hexec.completed_mono _
                         (hscan.skip_cover t ht hf) }
              · intro r hr
                simp at hr
              · intro r hr
                simp at hr
              · intro rem h
                have h2 := KickoffOutcome.error.inj h
                simp at h2
              · intro hn id err2 h
                have hn1 := ScanStep_nfat hInv hscan hn
                obtain ⟨u, r, pre, entry, hu1, hr1, heq, hlook, htr, hent, hpre⟩ :=
                  hexec.err_shape (RunError.critical cid cerr) rfl hn1
                obtain ⟨hid1, herr1⟩ : cid = u.task_id ∧ cerr = r.error := by
                  have := RunError.critical.inj heq
                  exact this
                have h2 := KickoffOutcome.error.inj h
                have h3 := RunError.critical.inj h2
                refine ⟨u, r, pre, entry, hu1, hr1, ?_, ?_, hlook, htr, hent, hpre⟩
                · rw [← h3.1]; exact hid1
                · rw [← h3.2]; exact herr1
              · intro hn hne
                exact absurd rfl (hne cid cerr)
              · intro t dep hm hdep hmiss hflag hc hf
                obtain ⟨h1c, h1f⟩ := scan_unreach hscan hflag hc hf
                have hm1 : t ∈ st1.tasks := by
                  rw [htasks1]; exact hm
                have hmiss1 : dep ∉ st1.tasks.map Task.task_id := by
                  rw [htasks1]; exact hmiss
                exact exec_unreach hginv hnd1 hexinv hexec hm1 hdep hmiss1 h1c h1f
      · rw [show kickoffLoop flags (fuel + 1) st =
            (st, KickoffOutcome.ok st.results) by
          simp [kickoffLoop, hcond]]
        exact LoopSpec_exit flags (fuel + 1) st hInv hnd hcond

theorem NFat_initState (crew : Crew) : NFat (initState crew) := by
  intro e he
  exact absurd he (List.not_mem_nil e)

theorem kickoff_spec (flags : SkipFlags) (agents : List Agent)
    (tasks : List Task) (config : Descriptor) (verbose : Bool) :
    LoopSpec flags ((Crew.init agents tasks config verbose).tasks.length + 1)
      (initState (Crew.init agents tasks config verbose))
      ((Crew.init agents tasks config verbose).kickoff flags) :=
  kickoffLoop_spec flags _ _
    (Inv_initState flags _ rfl rfl)
    (crew_init_nodup agents tasks config verbose)

/-- C6: `Task.can_execute(completed_tasks)` returns true if and only if
every ID in the task's `dependencies` list is present in the given
`completed_tasks` list.  (It is a pure function of its two arguments in
this embedding, with no side effects on either.) -/
theorem claim_C6_can_execute_iff (t : Task) (completed_tasks : List String) :
    t.can_execute completed_tasks = true ↔
      ∀ dep ∈ t.dependencies, dep ∈ completed_tasks :=
  can_execute_iff t completed_tasks

/-- C6 witness: a concrete evaluation through the theorem. -/
theorem claim_C6_witness : taskC.can_execute ["A"] = true :=
  (claim_C6_can_execute_iff taskC ["A"]).mpr (by decide)

/-- C3: `Agent.execute_task` is total (never propagates an exception): its
result always has status `completed` or `failed`; on a normal return of a
descriptor it is `completed` with `output_path` looked up from the
descriptor's `output_path` key (absence giving no path) and the full
descriptor as metadata; on an exception it is `failed` carrying the
exception's message, with no output path. -/
theorem claim_C3_execute_task_total (agent : Agent) (task : Task)
    (context : Context) :
    (agent.execute_task task context).task_id = task.task_id ∧
    ((agent.execute_task task context).status = TaskStatus.completed ∨
     (agent.execute_task task context).status = TaskStatus.failed) ∧
    (∀ d, task.action context = ActionResult.ok d →
      agent.execute_task task context =
        { task_id := task.task_id, status := TaskStatus.completed,
          output_path := alookup d "output_path", error := none,
          metadata := d }) ∧
    (∀ m, task.action context = ActionResult.exn m →
      agent.execute_task task context =
        { task_id := task.task_id, status := TaskStatus.failed,
          output_path := none, error := some m, metadata := [] }) :=
  ⟨execute_task_task_id agent task context,
   execute_task_status agent task context,
   fun d h => execute_task_ok agent task context d h,
   fun m h => execute_task_exn agent task context m h⟩

/-- C3 witness: both branches evaluated on concrete tasks. -/
theorem claim_C3_witness :
    exAgent.execute_task taskA [] =
      { task_id := "A", status := TaskStatus.completed,
        output_path := some { data := "out.txt", truthy := true },
        error := none,
        metadata := [("output_path", { data := "out.txt", truthy := true })] } ∧
    exAgent.execute_task taskG [] =
      { task_id := "G", status := TaskStatus.failed, output_path := none,
        error := some "boom", metadata := [] } := by
  constructor
  · exact ((claim_C3_execute_task_total exAgent taskA []).2.2.1 _ rfl).trans
      (by decide)
  · exact ((claim_C3_execute_task_total exAgent taskG []).2.2.2 "boom" rfl).trans
      (by decide)

/-- C2: `Crew.kickoff` terminates for every finite task set and skip map:
the fuelled loop never exhausts its fuel bound (the Python `while` loop
makes at most one pass per task); when it returns normally, the returned
map is the run's results map and every task of the crew holds a terminal
result (`completed`, `failed` or `skipped`); and when no task is runnable
while tasks remain, it raises a stuck-workflow error naming exactly the
remaining (unresolved) task IDs. -/
theorem claim_C2_terminates (agents : List Agent) (tasks : List Task)
    (config : Descriptor) (verbose : Bool) (skip_flags : SkipFlags) :
    ((Crew.init agents tasks config verbose).kickoff skip_flags).2 ≠
      KickoffOutcome.fuelOut ∧
    (∀ r, ((Crew.init agents tasks config verbose).kickoff skip_flags).2 =
        KickoffOutcome.ok r →
      r = ((Crew.init agents tasks config verbose).kickoff skip_flags).1.results ∧
      ∀ t ∈ (Crew.init agents tasks config verbose).tasks,
        ∃ res, alookup r t.task_id = some res ∧
          (res.status = TaskStatus.completed ∨
           res.status = TaskStatus.failed ∨
           res.status = TaskStatus.skipped)) ∧
    (∀ rem, ((Crew.init agents tasks config verbose).kickoff skip_flags).2 =
        KickoffOutcome.error (RunError.stuck rem) →
      rem = remainingIds
        ((Crew.init agents tasks config verbose).kickoff skip_flags).1 ∧
      rem ≠ []) := by
  have spec := kickoff_spec skip_flags agents tasks config verbose
  refine ⟨?_, ?_, spec.stuck_shape⟩
  · refine spec.not_fuelOut ?_
    simp [initState]
  · intro r hr
    have hres := spec.ok_results r hr
    refine ⟨hres, ?_⟩
    intro t ht
    have hcov := spec.ok_cover r hr t.task_id
      (List.mem_map_of_mem Task.task_id ht)
    obtain ⟨res, hlook, _, hstat⟩ := spec.inv.resolved_res t.task_id hcov
    rw [hres]
    exact ⟨res, hlook, hstat⟩

/-- C2 witness: a completing run evaluated through the theorem. -/
theorem claim_C2_witness :
    (crewChain.kickoff []).2 ≠ KickoffOutcome.fuelOut ∧
    ∃ res, alookup (crewChain.kickoff []).1.results "C" = some res ∧
      (res.status = TaskStatus.completed ∨ res.status = TaskStatus.failed ∨
       res.status = TaskStatus.skipped) := by
  have h := claim_C2_terminates [exAgent] [taskA, taskC] [] true []
  have htasks : (Crew.init [exAgent] [taskA, taskC] [] true).tasks =
      [taskA, taskC] := rfl
  have hmem : taskC ∈ (Crew.init [exAgent] [taskA, taskC] [] true).tasks := by
    rw [htasks]
    exact List.mem_cons_of_mem _ (List.mem_singleton_self _)
  have hok : (crewChain.kickoff []).2 =
      KickoffOutcome.ok (crewChain.kickoff []).1.results := by decide
  have h2 := (h.2.1 (crewChain.kickoff []).1.results hok).2 taskC hmem
  exact ⟨h.1, h2⟩

/-- C9: within a single run each task's action is invoked at most once
(the invocation trace has no repeated task ID), and the orchestrator's
results map receives at most one write per task ID which is never
replaced (the key list of the results map equals the ordered write log,
and that log has no duplicates). -/
theorem claim_C9_at_most_once (agents : List Agent) (tasks : List Task)
    (config : Descriptor) (verbose : Bool) (skip_flags : SkipFlags) :
    ((((Crew.init agents tasks config verbose).kickoff skip_flags).1.trace.map
        (fun e => e.task.task_id)).Nodup) ∧
    (((Crew.init agents tasks config verbose).kickoff skip_flags).1.results.map
        Prod.fst =
      ((Crew.init agents tasks config verbose).kickoff skip_flags).1.resultWrites) ∧
    (((Crew.init agents tasks config verbose).kickoff
        skip_flags).1.resultWrites.Nodup) := by
  have spec := kickoff_spec skip_flags agents tasks config verbose
  exact ⟨spec.inv.trace_nodup, spec.inv.res_keys, spec.inv.resW_nodup⟩

/-- C8: throughout a run the shared context is written at most once per
task ID and only ever appended to (its key list equals the ordered,
duplicate-free write log), and every entry belongs to a completed task:
its key is in the completed list and the recorded result under that key
has status `completed` (so never a skipped or failed task). -/
theorem claim_C8_context (agents : List Agent) (tasks : List Task)
    (config : Descriptor) (verbose : Bool) (skip_flags : SkipFlags) :
    (((Crew.init agents tasks config verbose).kickoff skip_flags).1.context.map
        Prod.fst =
      ((Crew.init agents tasks config verbose).kickoff
        skip_flags).1.contextWrites) ∧
    (((Crew.init agents tasks config verbose).kickoff
        skip_flags).1.contextWrites.Nodup) ∧
    (∀ id entry, alookup
        ((Crew.init agents tasks config verbose).kickoff skip_flags).1.context
        id = some entry →
      id ∈ ((Crew.init agents tasks config verbose).kickoff
        skip_flags).1.completed_tasks ∧
      ∃ r, alookup ((Crew.init agents tasks config verbose).kickoff
          skip_flags).1.results id = some r ∧
        r.status = TaskStatus.completed ∧ r.task_id = id) := by
  have spec := kickoff_spec skip_flags agents tasks config verbose
  refine ⟨spec.inv.ctx_keys, spec.inv.ctxW_nodup, ?_⟩
  intro id entry hlook
  have hkey : id ∈ ((Crew.init agents tasks config verbose).kickoff
      skip_flags).1.contextWrites := by
    rw [← spec.inv.ctx_keys]
    exact mem_map_fst_of_alookup hlook
  have hcomp := spec.inv.ctxW_completed id hkey
  obtain ⟨r, hr, hs⟩ := spec.inv.ctx_completed_res id hkey
  obtain ⟨r2, hr2, hid2, _⟩ := spec.inv.resolved_res id (Or.inl hcomp)
  rw [hr] at hr2
  obtain rfl := Option.some.inj hr2
  exact ⟨hcomp, r, hr, hs, hid2⟩

/-- C8 witness: the context of a completed run evaluated through the
theorem. -/
theorem claim_C8_witness :
    "A" ∈ (crewChain.kickoff []).1.completed_tasks ∧
    ∃ r, alookup (crewChain.kickoff []).1.results "A" = some r ∧
      r.status = TaskStatus.completed ∧ r.task_id = "A" := by
  have h := (claim_C8_context [exAgent] [taskA, taskC] [] true []).2.2 "A"
    { output_path := some { data := "out.txt", truthy := true }
      metadata := [("output_path", { data := "out.txt", truthy := true })] }
    (by decide)
  exact h

/-- C10: the orchestrator never mutates any `Task`'s `status` field: the
task list after `kickoff` is exactly the crew's task list, so if every
task started `pending` (as `Task.init` guarantees: its `status` is always
`pending`), every task still has status `pending` after the run, whatever
the outcome. -/
theorem claim_C10_status_untouched (agents : List Agent) (tasks : List Task)
    (config : Descriptor) (verbose : Bool) (skip_flags : SkipFlags)
    (hp : ∀ t ∈ tasks, t.status = TaskStatus.pending) :
    (((Crew.init agents tasks config verbose).kickoff skip_flags).1.tasks =
      (Crew.init agents tasks config verbose).tasks) ∧
    (∀ t ∈ ((Crew.init agents tasks config verbose).kickoff skip_flags).1.tasks,
      t.status = TaskStatus.pending) ∧
    (∀ (id desc : String) (ag : Agent) (act : Context → ActionResult)
        (deps : List String) (ck : Option String) (sk : Bool),
      (Task.init id desc ag act deps ck sk).status = TaskStatus.pending) := by
  have spec := kickoff_spec skip_flags agents tasks config verbose
  refine ⟨spec.tasks_eq, ?_, fun _ _ _ _ _ _ _ => rfl⟩
  intro t ht
  rw [spec.tasks_eq] at ht
  exact buildTaskDict_pred (fun t => t.status = TaskStatus.pending) tasks hp t ht

/-- C10 witness: a concrete crew whose tasks all stay `pending`. -/
theorem claim_C10_witness :
    (crewChain.kickoff []).1.tasks.map Task.status =
      [TaskStatus.pending, TaskStatus.pending] := by
  have hp : ∀ t ∈ [taskA, taskC], t.status = TaskStatus.pending := by
    intro t ht
    rcases List.mem_cons.mp ht with rfl | ht
    · rfl
    · rcases List.mem_singleton.mp ht with rfl
      rfl
  have h := claim_C10_status_untouched [exAgent] [taskA, taskC] [] true [] hp
  rw [show (crewChain.kickoff []).1.tasks =
    (Crew.init [exAgent] [taskA, taskC] [] true).tasks from h.1]
  rfl

theorem getLast_append_one {α : Type} (l : List α) (a : α) :
    (l ++ [a]).getLast? = some a := by
  induction l with
  | nil => rfl
  | cons b rest ih =>
      rw [List.cons_append]
      cases h : rest ++ [a] with
      | nil => simp at h
      | cons c cs =>
          rw [List.getLast?_cons_cons, ← h]
          exact ih

/-- C1 counterexample: in the crew whose task `B` references the missing
dependency ID `Z`, `kickoff` executes task `A`'s action first (the trace
is `["A"]`) and raises the fatal (stuck-workflow) error only afterwards —
not before executing any task's action as the claim states. -/
theorem claim_C1_counterexample :
    "Z" ∈ taskBmissing.dependencies ∧
    "Z" ∉ (runCrew [exAgent] [taskA, taskBmissing] [] true
      []).1.tasks.map Task.task_id ∧
    ((runCrew [exAgent] [taskA, taskBmissing] [] true []).1.trace.map
      (fun e => e.task.task_id)) = ["A"] ∧
    (runCrew [exAgent] [taskA, taskBmissing] [] true []).2 =
      KickoffOutcome.error (RunError.stuck ["B"]) :=
  ⟨by decide, by decide, by decide, by decide⟩

/-- C1 amended: if a task's `dependencies` list references an ID that
does not exist in the task set and the task is not skip-requested, the
run always ends by raising a fatal error (a stuck-workflow or critical
error) rather than returning normally or looping forever — but the error
is detected at run time, possibly after other runnable tasks' actions
have executed, not before executing anything. -/
theorem claim_C1_missing_dep_raises (agents : List Agent) (tasks : List Task)
    (config : Descriptor) (verbose : Bool) (skip_flags : SkipFlags)
    (t : Task) (dep : String)
    (hm : t ∈ (Crew.init agents tasks config verbose).tasks)
    (hdep : dep ∈ t.dependencies)
    (hmiss : dep ∉ (Crew.init agents tasks config verbose).tasks.map
      Task.task_id)
    (hflag : skipRequested skip_flags t.task_id = false) :
    ∃ e, (runCrew agents tasks config verbose skip_flags).2 =
      KickoffOutcome.error e := by
  simp only [runCrew]
  have spec := kickoff_spec skip_flags agents tasks config verbose
  have hun := spec.unreach t dep hm hdep hmiss hflag
    (by simp [initState]) (by simp [initState])
  cases houtcome : ((Crew.init agents tasks config verbose).kickoff
      skip_flags).2 with
  | ok r =>
      exfalso
      have hcov := spec.ok_cover r houtcome t.task_id
        (List.mem_map_of_mem Task.task_id hm)
      exact hcov.elim hun.1 hun.2
  | error e => exact ⟨e, rfl⟩
  | fuelOut =>
      exfalso
      exact spec.not_fuelOut (by simp [initState]) houtcome

/-- C1 witness: the amended theorem applied to the concrete crew with the
missing dependency ID. -/
theorem claim_C1_witness :
    ∃ e, (runCrew [exAgent] [taskA, taskBmissing] [] true []).2 =
      KickoffOutcome.error e := by
  have htl : (Crew.init [exAgent] [taskA, taskBmissing] [] true).tasks =
      [taskA, taskBmissing] := rfl
  refine claim_C1_missing_dep_raises [exAgent] [taskA, taskBmissing] [] true []
    taskBmissing "Z" ?_ (by decide) (by decide) rfl
  rw [htl]
  exact List.mem_cons_of_mem _ (List.mem_singleton_self _)

/-- C4: whenever a recorded invocation belonged to a non-skippable task
whose stored result is `failed`, the run's outcome is the fatal critical
error naming that task and its error message, and that invocation is the
last one in the trace (no further task's action was invoked after it);
moreover the results and context maps retain exactly one entry per
recorded write (no rollback: nothing recorded is removed). -/
theorem claim_C4_fatal_failfast (agents : List Agent) (tasks : List Task)
    (config : Descriptor) (verbose : Bool) (skip_flags : SkipFlags) :
    (∀ e ∈ (runCrew agents tasks config verbose skip_flags).1.trace,
      e.task.skippable = false →
      ∀ r, alookup (runCrew agents tasks config verbose skip_flags).1.results
          e.task.task_id = some r →
        r.status = TaskStatus.failed →
        (runCrew agents tasks config verbose skip_flags).2 =
          KickoffOutcome.error
            (RunError.critical e.task.task_id r.error) ∧
        (runCrew agents tasks config verbose
          skip_flags).1.trace.getLast? = some e) ∧
    (runCrew agents tasks config verbose skip_flags).1.results.map Prod.fst =
      (runCrew agents tasks config verbose skip_flags).1.resultWrites ∧
    (runCrew agents tasks config verbose skip_flags).1.context.map Prod.fst =
      (runCrew agents tasks config verbose skip_flags).1.contextWrites := by
  simp only [runCrew]
  have spec := kickoff_spec skip_flags agents tasks config verbose
  have hninit := NFat_initState (Crew.init agents tasks config verbose)
  refine ⟨?_, spec.inv.res_keys, spec.inv.ctx_keys⟩
  intro e he hsk r hr hrs
  cases houtcome : ((Crew.init agents tasks config verbose).kickoff
      skip_flags).2 with
  | ok r2 =>
      exfalso
      have hnf := spec.no_fatal hninit (fun id err h => by
        have hcontra := h.symm.trans houtcome
        simp at hcontra)
      exact (hnf e he hsk r hr) hrs
  | fuelOut =>
      exfalso
      exact spec.not_fuelOut (by simp [initState]) houtcome
  | error err =>
      cases err with
      | stuck rem =>
          exfalso
          have hnf := spec.no_fatal hninit (fun id err2 h => by
            have hcontra := h.symm.trans houtcome
            simp at hcontra)
          exact (hnf e he hsk r hr) hrs
      | critical cid cerr =>
          obtain ⟨u, r0, pre, entry, hu1, hr01, hcid, hcerr, hlook, htr,
            hent, hpre⟩ := spec.fatal_shape hninit cid cerr houtcome
          rw [htr] at he
          rcases List.mem_append.mp he with hepre | heent
          · exfalso
            exact (hpre e hepre hsk r hr) hrs
          · rcases List.mem_singleton.mp heent with rfl
            rw [hent] at hr
            have hr0r : r0 = r := Option.some.inj (hlook.symm.trans hr)
            subst hr0r
            constructor
            · rw [hcid, hcerr, hent]
            · rw [htr]
              exact getLast_append_one pre e

/-- C4 witness: the concrete crew where non-skippable `G` fails while `A`
has already completed and `C` is still pending. -/
theorem claim_C4_witness :
    (runCrew [exAgent] [taskA, taskG, taskC] [] true []).2 =
      KickoffOutcome.error (RunError.critical "G" (some "boom")) ∧
    (runCrew [exAgent] [taskA, taskG, taskC] [] true []).1.trace.getLast? =
      some { task := taskG, completed_at_call := ["A"] } := by
  have htrace : (runCrew [exAgent] [taskA, taskG, taskC] [] true []).1.trace =
      [{ task := taskA, completed_at_call := [] },
       { task := taskG, completed_at_call := ["A"] }] := rfl
  have hmem : ({ task := taskG, completed_at_call := ["A"] } : TraceEntry) ∈
      (runCrew [exAgent] [taskA, taskG, taskC] [] true []).1.trace := by
    rw [htrace]
    exact List.mem_cons_of_mem _ (List.mem_singleton_self _)
  have h := (claim_C4_fatal_failfast [exAgent] [taskA, taskG, taskC] [] true
    []).1 _ hmem rfl
    { task_id := "G", status := TaskStatus.failed, output_path := none,
      error := some "boom", metadata := [] } (by decide) rfl
  exact h

/-- C5: a skip-requested task's action is never invoked (no trace entry
carries its ID), a `skipped` TaskResult is recorded for it, its ID is
appended to the completed list (so dependents' `can_execute` checks treat
it as satisfied), and no entry for it is added to the shared context. -/
theorem claim_C5_skip_requested (agents : List Agent) (tasks : List Task)
    (config : Descriptor) (verbose : Bool) (skip_flags : SkipFlags) (t : Task)
    (hm : t ∈ (Crew.init agents tasks config verbose).tasks)
    (hflag : skipRequested skip_flags t.task_id = true) :
    t.task_id ∈ (runCrew agents tasks config verbose
      skip_flags).1.completed_tasks ∧
    alookup (runCrew agents tasks config verbose skip_flags).1.results
      t.task_id = some (skippedResult t.task_id) ∧
    (∀ e ∈ (runCrew agents tasks config verbose skip_flags).1.trace,
      e.task.task_id ≠ t.task_id) ∧
    alookup (runCrew agents tasks config verbose skip_flags).1.context
      t.task_id = none := by
  simp only [runCrew]
  have spec := kickoff_spec skip_flags agents tasks config verbose
  have hcomp : t.task_id ∈ ((Crew.init agents tasks config verbose).kickoff
      skip_flags).1.completed_tasks := by
    refine spec.skipc (Nat.succ_pos _) ?_ t hm hflag
    simp [initState]
    exact List.length_pos_of_mem hm
  refine ⟨hcomp, ?_, ?_, ?_⟩
  · obtain ⟨r, hr, _, _⟩ := spec.inv.resolved_res t.task_id (Or.inl hcomp)
    have hre := spec.inv.skipflag_res t.task_id hflag r hr
    rw [← hre]
    exact hr
  · intro e he heq
    have hns := spec.inv.trace_noskip e he
    rw [heq] at hns
    have hcontra := hflag.symm.trans hns
    exact absurd hcontra (by decide)
  · apply alookup_eq_none
    rw [spec.inv.ctx_keys]
    intro hkmem
    have hns := spec.inv.ctxW_noskip t.task_id hkmem
    have hcontra := hflag.symm.trans hns
    exact absurd hcontra (by decide)

/-- C5 witness: skipping `A` in the chain crew through the theorem. -/
theorem claim_C5_witness :
    "A" ∈ (runCrew [exAgent] [taskA, taskC] [] true
      [("A", true)]).1.completed_tasks ∧
    alookup (runCrew [exAgent] [taskA, taskC] [] true
      [("A", true)]).1.results "A" = some (skippedResult "A") ∧
    alookup (runCrew [exAgent] [taskA, taskC] [] true
      [("A", true)]).1.context "A" = none := by
  have htl : (Crew.init [exAgent] [taskA, taskC] [] true).tasks =
      [taskA, taskC] := rfl
  have hmem : taskA ∈ (Crew.init [exAgent] [taskA, taskC] [] true).tasks := by
    rw [htl]
    exact List.mem_cons_self _ _
  have h := claim_C5_skip_requested [exAgent] [taskA, taskC] [] true
    [("A", true)] taskA hmem rfl
  exact ⟨h.1, h.2.1, h.2.2.2⟩

/-- C7 counterexample: the acyclic two-task set where skippable `E` fails
and `F` depends on `E`, run with no skip requests.  `kickoff` raises a
stuck-workflow error and `F` ends in neither the completed nor the failed
list, so the engine does not complete with every task in `completed` or
`failed` as the claim states. -/
theorem claim_C7_counterexample :
    taskE.skippable = true ∧ taskF.dependencies = ["E"] ∧
    (runCrew [exAgent] [taskE, taskF] [] true []).2 =
      KickoffOutcome.error (RunError.stuck ["F"]) ∧
    "F" ∉ (runCrew [exAgent] [taskE, taskF] [] true []).1.completed_tasks ∧
    "F" ∉ (runCrew [exAgent] [taskE, taskF] [] true []).1.failed_tasks ∧
    "F" ∈ (runCrew [exAgent] [taskE, taskF] [] true []).1.tasks.map
      Task.task_id :=
  ⟨rfl, rfl, by decide, by decide, by decide, by decide⟩

/-- C7 amended: for every task set and every run with no skip requests,
the engine terminates — it either returns with every task in the
completed or failed list, or raises an exception; and a task's action is
never invoked before every one of its dependencies is in the completed
list at the moment of invocation. -/
theorem claim_C7_order_respected (agents : List Agent) (tasks : List Task)
    (config : Descriptor) (verbose : Bool) (skip_flags : SkipFlags)
    (_hns : ∀ id, skipRequested skip_flags id = false) :
    (runCrew agents tasks config verbose skip_flags).2 ≠
      KickoffOutcome.fuelOut ∧
    (∀ r, (runCrew agents tasks config verbose skip_flags).2 =
        KickoffOutcome.ok r →
      ∀ t ∈ (Crew.init agents tasks config verbose).tasks,
        t.task_id ∈ (runCrew agents tasks config verbose
          skip_flags).1.completed_tasks ∨
        t.task_id ∈ (runCrew agents tasks config verbose
          skip_flags).1.failed_tasks) ∧
    (∀ e ∈ (runCrew agents tasks config verbose skip_flags).1.trace,
      e.task.can_execute e.completed_at_call = true) := by
  simp only [runCrew]
  have spec := kickoff_spec skip_flags agents tasks config verbose
  exact ⟨spec.not_fuelOut (by simp [initState]),
    fun r hr t ht => spec.ok_cover r hr t.task_id
      (List.mem_map_of_mem Task.task_id ht),
    spec.inv.trace_can⟩

/-- C7 witness: the amended theorem applied to the completing chain crew. -/
theorem claim_C7_witness :
    "C" ∈ (runCrew [exAgent] [taskA, taskC] [] true []).1.completed_tasks ∨
    "C" ∈ (runCrew [exAgent] [taskA, taskC] [] true []).1.failed_tasks := by
  have htl : (Crew.init [exAgent] [taskA, taskC] [] true).tasks =
      [taskA, taskC] := rfl
  have hmem : taskC ∈ (Crew.init [exAgent] [taskA, taskC] [] true).tasks := by
    rw [htl]
    exact List.mem_cons_of_mem _ (List.mem_singleton_self _)
  have h := claim_C7_order_respected [exAgent] [taskA, taskC] [] true []
    (fun id => rfl)
  exact h.2.1 (runCrew [exAgent] [taskA, taskC] [] true []).1.results
    (by decide) taskC hmem

end AgentFramework
